import Mathlib

/-!
Verification of the parameter dependency resolver of the `api-builder`
repository, shallowly embedded from `cli/dependency_analyzer.py`,
`cli/parameter_detector.py`, `cli/context.py` and
`cli/commands/system.py`.

Python dictionaries are modelled as association lists (`List (String × _)`),
Python sets as duplicate-free lists built by insertion-ordered folding, and
JSON values as the inductive type `Val`.  Python string primitives
(`lower`, `endswith`, `split`, ...) are modelled by executable functions on
the character list of a `String`, so closed instances evaluate by `rfl` or
`decide`.
-/

set_option maxRecDepth 40000

namespace ApiBuilder

/- ------------------------------------------------------------------ -/
/- String primitives (models of Python str methods)                    -/
/- ------------------------------------------------------------------ -/

/-- Python `str.lower()` (ASCII). -/
def strLower (s : String) : String :=
  String.mk (s.data.map Char.toLower)

/-- Python `str.upper()` (ASCII). -/
def strUpper (s : String) : String :=
  String.mk (s.data.map Char.toUpper)

/-- Python `str.endswith(suffix)`. -/
def strEndsWith (s suffix : String) : Bool :=
  suffix.data.isSuffixOf s.data

/-- Python `str.startswith(p)`. -/
def strStartsWith (s p : String) : Bool :=
  p.data.isPrefixOf s.data

/-- Infix search on character lists. -/
def listContainsSub (s sub : List Char) : Bool :=
  sub.isPrefixOf s ||
    match s with
    | [] => false
    | _ :: t => listContainsSub t sub

/-- Python `sub in s` substring membership. -/
def strContainsSub (s sub : String) : Bool :=
  listContainsSub s.data sub.data

/-- Split a character list at a separator character. -/
def splitChar (c : Char) : List Char → List Char → List String
  | [], acc => [String.mk acc.reverse]
  | x :: xs, acc =>
      if x == c then String.mk acc.reverse :: splitChar c xs []
      else splitChar c xs (x :: acc)

/-- Drop the last `n` characters, Python `s[:-n]` for `n ≤ len(s)`. -/
def strDropRight (s : String) (n : Nat) : String :=
  String.mk (s.data.take (s.data.length - n))

/- ------------------------------------------------------------------ -/
/- JSON values                                                         -/
/- ------------------------------------------------------------------ -/

/-- A JSON-like value, the payload type flowing through the resolver.
`vNull` plays the role of Python's `None`. -/
inductive Val where
  | vNull
  | vBool (b : Bool)
  | vInt (n : Int)
  | vStr (s : String)
  | vList (items : List Val)
  | vObj (fields : List (String × Val))

/-- Python truthiness for `Val`: `None`, `False`, `0`, `""`, `[]` and `{}`
are falsy, everything else truthy. -/
def truthy : Val → Bool
  | .vNull => false
  | .vBool b => b
  | .vInt n => n != 0
  | .vStr s => s != ""
  | .vList [] => false
  | .vList (_ :: _) => true
  | .vObj [] => false
  | .vObj (_ :: _) => true

/-- Whether a value is Python's `None`. -/
def Val.isNull : Val → Bool
  | .vNull => true
  | _ => false

/-- First-match association-list lookup, modelling Python `dict[k]`
access / `k in dict` membership. -/
def lookupA {α : Type} (l : List (String × α)) (k : String) : Option α :=
  (l.find? (fun kv => kv.1 == k)).map (fun kv => kv.2)

/-- Lookup with a default, modelling Python `dict.get(k, d)`. -/
def lookupD {α : Type} (l : List (String × α)) (k : String) (d : α) : α :=
  (lookupA l k).getD d

/- ------------------------------------------------------------------ -/
/- OpenAPI data model                                                  -/
/- ------------------------------------------------------------------ -/

/-- An OpenAPI schema fragment: the dict keys the analyzer reads
(`$ref`, `type`, `properties`, `items`). -/
inductive Schema where
  | mk (ref : Option String) (type : Option String)
       (properties : List (String × Schema)) (items : Option Schema)

/-- Field accessor for the `$ref` key. -/
def Schema.ref : Schema → Option String
  | .mk r _ _ _ => r

/-- Field accessor for the `type` key. -/
def Schema.type : Schema → Option String
  | .mk _ t _ _ => t

/-- Field accessor for the `properties` key. -/
def Schema.properties : Schema → List (String × Schema)
  | .mk _ _ p _ => p

/-- Field accessor for the `items` key. -/
def Schema.items : Schema → Option Schema
  | .mk _ _ _ i => i

/-- The empty schema `{}`, the default when a lookup misses. -/
def emptySchema : Schema := Schema.mk none none [] none

/-- An entry of an OpenAPI `parameters` list.  The analyzer and the
detector read the keys `name`, `required`, `enum`, `type`, `format` and
`pattern` directly off this dict. -/
structure PDict where
  name : String
  required : Bool := false
  enum : Option (List String) := none
  type : Option String := none
  format : Option String := none
  pattern : Option String := none
deriving DecidableEq

/-- A media-type object: `{"schema": ...}`. -/
structure MediaObj where
  schema : Option Schema := none

/-- A response object: `{"content": {media: mediaObj}}`. -/
structure RespObj where
  content : List (String × MediaObj) := []

/-- An operation object: the `parameters` and `responses` keys. -/
structure Details where
  parameters : List PDict := []
  responses : List (String × RespObj) := []

/-- The loaded OpenAPI specification: `paths` maps a path to its method
dict; `schemas` is `components.schemas`. -/
structure OpenApiSpec where
  paths : List (String × List (String × Details)) := []
  schemas : List (String × Schema) := []

/-- Models `schema["$ref"].split("/")[-1]`. -/
def lastSegment (s : String) : String :=
  ((splitChar '/' s.data []).getLast?).getD s

/-- Resolve a single `$ref` indirection against the schema registry,
falling back to `{}` when the reference is dangling
(`self.schemas.get(ref, {})`). -/
def deref (schemas : List (String × Schema)) (s : Schema) : Schema :=
  match s.ref with
  | some r => (lookupA schemas (lastSegment r)).getD emptySchema
  | none => s

/-- Insertion into a Python set modelled as a duplicate-free list. -/
def dedupAdd (l : List String) (x : String) : List String :=
  if x ∈ l then l else l ++ [x]

/-- Fold a list into a duplicate-free list, modelling building a Python
set by iterated `add`/`update`. -/
def dedupL (xs : List String) : List String :=
  xs.foldl dedupAdd []

/-- `DependencyAnalyzer._extract_properties`: top-level property names of
a schema, following `$ref` if present. -/
def extract_properties (schemas : List (String × Schema)) (s : Schema) :
    List String :=
  let s := deref schemas s
  dedupL (s.properties.map (fun kv => kv.1))

/-- `DependencyAnalyzer._extract_nested_properties`: property names one
level down, inside `object`-typed properties and inside `array` item
schemas. -/
def extract_nested_properties (schemas : List (String × Schema))
    (s : Schema) : List String :=
  let s := deref schemas s
  s.properties.foldl
    (fun acc kv =>
      let acc :=
        if kv.2.type == some "object" then
          (extract_properties schemas kv.2).foldl dedupAdd acc
        else acc
      match kv.2.items with
      | some it =>
          if kv.2.type == some "array" then
            (extract_properties schemas it).foldl dedupAdd acc
          else acc
      | none => acc)
    []

/-- `DependencyAnalyzer._is_foreign_key`: `re.match(r".*Id$", name)`. -/
def da_is_foreign_key (name : String) : Bool :=
  strEndsWith name "Id"

/-- One `setdefault(name, []).append(path)` step on the provider map. -/
def addProvider (m : List (String × List String)) (name path : String) :
    List (String × List String) :=
  match m with
  | [] => [(name, [path])]
  | (k, l) :: rest =>
      if k == name then (k, l ++ [path]) :: rest
      else (k, l) :: addProvider rest name path

/-- The `(parameter, path)` registrations a single GET operation at
`path` contributes, in program order: response-schema properties (direct
and nested) first, then declared parameters matching the foreign-key
pattern. -/
def getRegs (schemas : List (String × Schema)) (path : String)
    (details : Details) : List (String × String) :=
  (details.responses.flatMap fun rp =>
    rp.2.content.flatMap fun mo =>
      let sch := (mo.2.schema).getD emptySchema
      ((extract_properties schemas sch) ++
        (extract_nested_properties schemas sch)).map
        (fun prop => (prop, path)))
  ++ (details.parameters.filter (fun p => da_is_foreign_key p.name)).map
      (fun p => (p.name, path))

/-- `DependencyAnalyzer.analyze_parameters`: map each parameter name to
the list of endpoint paths that can provide it. -/
def analyze_parameters (sp : OpenApiSpec) : List (String × List String) :=
  sp.paths.foldl
    (fun m pt =>
      pt.2.foldl
        (fun m md =>
          if strLower md.1 == "get" then
            (getRegs sp.schemas pt.1 md.2).foldl
              (fun m reg => addProvider m reg.1 reg.2) m
          else m)
        m)
    []

/-- Replace the value at a key (first occurrence) or append a new entry,
modelling Python dict assignment `g[k] = v`. -/
def assignKey (g : List (String × List String)) (k : String)
    (v : List String) : List (String × List String) :=
  match g with
  | [] => [(k, v)]
  | (k', v') :: rest =>
      if k' == k then (k, v) :: rest else (k', v') :: assignKey rest k v

/-- `DependencyAnalyzer.build_dependency_graph`: each GET endpoint maps
to the set of provider endpoints of its required parameters, minus
itself. -/
def build_dependency_graph (sp : OpenApiSpec)
    (ptp : List (String × List String)) : List (String × List String) :=
  sp.paths.foldl
    (fun g pt =>
      pt.2.foldl
        (fun g md =>
          if strLower md.1 == "get" then
            let requiredNames :=
              (md.2.parameters.filter (fun p => p.required)).map
                (fun p => p.name)
            let deps :=
              requiredNames.foldl
                (fun acc pn => (lookupD ptp pn []).foldl dedupAdd acc) []
            assignKey g pt.1 (deps.filter (fun d => d ≠ pt.1))
          else g)
        g)
    []

/-- The analyzer state after `DependencyAnalyzer.__init__`. -/
structure Analyzer where
  paths : List (String × List (String × Details)) := []
  schemas : List (String × Schema) := []
  param_to_providers : List (String × List String) := []
  dependency_graph : List (String × List String) := []

/-- `DependencyAnalyzer.__init__`: store the spec and precompute the
provider map and the dependency graph. -/
def DependencyAnalyzer (sp : OpenApiSpec) : Analyzer :=
  let ptp := analyze_parameters sp
  { paths := sp.paths
    schemas := sp.schemas
    param_to_providers := ptp
    dependency_graph := build_dependency_graph sp ptp }

/-- `DependencyAnalyzer.find_parameter_providers`. -/
def find_parameter_providers (a : Analyzer) (param_name : String) :
    List String :=
  lookupD a.param_to_providers param_name []

/- ------------------------------------------------------------------ -/
/- Generic fold / assoc-list lemmas                                    -/
/- ------------------------------------------------------------------ -/

theorem foldl_preserves {α β : Type} (step : α → β → α) (P : α → Prop)
    (hstep : ∀ a b, P a → P (step a b)) :
    ∀ (l : List β) (a : α), P a → P (l.foldl step a) := by
  intro l
  induction l with
  | nil => intro a ha; exact ha
  | cons x xs ih => intro a ha; exact ih (step a x) (hstep a x ha)

theorem lookupA_nil {α : Type} (q : String) :
    lookupA ([] : List (String × α)) q = none := rfl

theorem lookupA_cons {α : Type} (k : String) (a : α)
    (rest : List (String × α)) (q : String) :
    lookupA ((k, a) :: rest) q = if k = q then some a else lookupA rest q := by
  rcases eq_or_ne k q with h | h
  · subst h
    rw [lookupA, List.find?_cons_of_pos _ (by simp)]
    simp
  · rw [lookupA, List.find?_cons_of_neg _ (by simpa using h)]
    simp [h, lookupA]

theorem lookupA_assignKey (g : List (String × List String))
    (k q : String) (v : List String) :
    lookupA (assignKey g k v) q =
      if q = k then some v else lookupA g q := by
  induction g with
  | nil =>
      show lookupA [(k, v)] q = _
      rw [lookupA_cons]
      rcases eq_or_ne q k with h | h
      · simp [h]
      · simp [h, Ne.symm h, lookupA_nil]
  | cons hd tl ih =>
      obtain ⟨k', v'⟩ := hd
      by_cases hk : k' = k
      · subst hk
        show lookupA (if (k' == k') = true then _ else _) q = _
        rw [if_pos (by simp)]
        rw [lookupA_cons, lookupA_cons]
        rcases eq_or_ne q k' with h | h
        · simp [h]
        · simp [h, Ne.symm h]
      · show lookupA (if (k' == k) = true then _ else _) q = _
        rw [if_neg (by simpa using hk)]
        rw [lookupA_cons, ih, lookupA_cons]
        rcases eq_or_ne q k' with h | h
        · subst h
          simp [hk]
        · simp [Ne.symm h]

/- ------------------------------------------------------------------ -/
/- C10: no self-dependency                                             -/
/- ------------------------------------------------------------------ -/

/-- Invariant of the dependency graph under construction: no key is a
member of its own dependency list. -/
def NoSelfDep (g : List (String × List String)) : Prop :=
  ∀ k v, lookupA g k = some v → k ∉ v

theorem noSelfDep_assignKey (g : List (String × List String)) (k : String)
    (deps : List String) (h : NoSelfDep g) :
    NoSelfDep (assignKey g k (deps.filter (fun d => d ≠ k))) := by
  intro q v hq
  rw [lookupA_assignKey] at hq
  by_cases hqk : q = k
  · rw [if_pos hqk] at hq
    cases hq
    subst hqk
    intro hmem
    simp [List.mem_filter] at hmem
  · rw [if_neg hqk] at hq
    exact h q v hq

/-- C10. For every endpoint `E` in a built `DependencyGraph`, `E` is not
a member of its own dependency set: `E ∉ graph[E]`. -/
theorem dependency_graph_no_self_loop (sp : OpenApiSpec) (E : String)
    (deps : List String)
    (h : lookupA (DependencyAnalyzer sp).dependency_graph E = some deps) :
    E ∉ deps := by
  have hmain :
      NoSelfDep (build_dependency_graph sp (analyze_parameters sp)) := by
    apply foldl_preserves _ NoSelfDep
    · intro g pt hg
      apply foldl_preserves _ NoSelfDep
      · intro g' md hg'
        by_cases hget : (strLower md.1 == "get") = true
        · rw [if_pos hget]
          exact noSelfDep_assignKey _ _ _ hg'
        · rw [if_neg hget]
          exact hg'
      · exact hg
    · intro k v hk
      rw [lookupA_nil] at hk
      cases hk
  exact hmain E deps h

/-- Small concrete spec with `/users` providing property `q` and
`/posts` requiring parameter `q`. -/
def specUP : OpenApiSpec :=
  { paths :=
      [ ("/users",
          [("get",
            { parameters := []
              responses :=
                [("200",
                  { content :=
                      [("application/json",
                        { schema :=
                            some (Schema.mk none (some "object")
                              [("q", emptySchema)] none) })] })] })])
      , ("/posts",
          [("get",
            { parameters := [{ name := "q", required := true }]
              responses := [] })]) ]
    schemas := [] }

/-- C10 witness: the theorem applied to `specUP` at endpoint `/posts`. -/
theorem dependency_graph_no_self_loop_witness :
    lookupA (DependencyAnalyzer specUP).dependency_graph "/posts" =
      some ["/users"] ∧ "/posts" ∉ ["/users"] :=
  ⟨by rfl,
   dependency_graph_no_self_loop specUP "/posts" ["/users"] (by rfl)⟩

/- ------------------------------------------------------------------ -/
/- Execution planner (`DependencyAnalyzer.get_execution_plan`)         -/
/- ------------------------------------------------------------------ -/

/-- `self.dependency_graph.get(endpoint, [])`. -/
def depsOf (g : List (String × List String)) (e : String) : List String :=
  lookupD g e []

/-- The `for dep in self.dependency_graph.get(endpoint, []): visit(dep)`
loop, threading the visited/plan state through a step function. -/
def visitList
    (step : String → List String × List String → List String × List String) :
    List String → List String × List String → List String × List String
  | [], vp => vp
  | d :: ds, vp => visitList step ds (step d vp)

/-- The inner `visit` closure of `get_execution_plan`: depth-first
post-order traversal with a `visited` set.  Python recursion is modelled
with a fuel parameter; fuel `0` leaves the state unchanged, and
`get_execution_plan` supplies fuel large enough that the result is
fuel-independent (see `visit_congr`). -/
def visitF (g : List (String × List String)) :
    Nat → String → List String × List String → List String × List String
  | 0, _, vp => vp
  | fuel + 1, e, (vis, plan) =>
      if e ∈ vis then (vis, plan)
      else
        let vp := visitList (visitF g fuel) (depsOf g e) (e :: vis, plan)
        (vp.1, vp.2 ++ [e])

/-- The trailing duplicate-removal loop of `get_execution_plan`
(`seen` / `ordered`). -/
def dedupLoop : List String → List String → List String → List String
  | [], _, ordered => ordered
  | ep :: rest, seen, ordered =>
      if ep ∈ seen then dedupLoop rest seen ordered
      else dedupLoop rest (ep :: seen) (ordered ++ [ep])

/-- Fuel bound under which the traversal stabilizes: one more than the
number of dependency-graph keys. -/
def planFuel (a : Analyzer) : Nat :=
  a.dependency_graph.length + 1

/-- The provider pre-pass of `get_execution_plan`: visit the providers
of every required parameter. -/
def execPrepass (a : Analyzer) (fuel : Nat)
    (required_params : List String) : List String × List String :=
  required_params.foldl
    (fun vp param =>
      (find_parameter_providers a param).foldl
        (fun vp provider => visitF a.dependency_graph fuel provider vp) vp)
    ([], [])

/-- `DependencyAnalyzer.get_execution_plan` with explicit fuel. -/
def get_execution_plan_fuel (a : Analyzer) (fuel : Nat)
    (target_endpoint : String) (required_params : List String) :
    List String :=
  let vp := execPrepass a fuel required_params
  let vp := visitF a.dependency_graph fuel target_endpoint vp
  dedupLoop vp.2 [] []

/-- `DependencyAnalyzer.get_execution_plan`. -/
def get_execution_plan (a : Analyzer) (target_endpoint : String)
    (required_params : List String) : List String :=
  get_execution_plan_fuel a (planFuel a) target_endpoint required_params

/- ------------------------------------------------------------------ -/
/- Traversal characterization                                          -/
/- ------------------------------------------------------------------ -/

/-- Relation between the visited set before a traversal step, the
visited set after it, and the freshly emitted plan entries `δ`: the new
visited set is the old one plus `δ`, and `δ` is duplicate-free and
disjoint from the old visited set. -/
def VisitOk (vis vis' δ : List String) : Prop :=
  (∀ x, x ∈ vis' ↔ (x ∈ vis ∨ x ∈ δ)) ∧ δ.Nodup ∧ ∀ x ∈ δ, x ∉ vis

theorem visitOk_nil (vis : List String) : VisitOk vis vis [] := by
  refine ⟨fun x => ?_, List.nodup_nil,
    fun x hx => absurd hx (List.not_mem_nil x)⟩
  simp

theorem visitOk_trans {vis vis₁ vis₂ δ₁ δ₂ : List String}
    (h₁ : VisitOk vis vis₁ δ₁) (h₂ : VisitOk vis₁ vis₂ δ₂) :
    VisitOk vis vis₂ (δ₁ ++ δ₂) := by
  obtain ⟨m₁, n₁, d₁⟩ := h₁
  obtain ⟨m₂, n₂, d₂⟩ := h₂
  refine ⟨fun x => ?_, ?_, fun x hx => ?_⟩
  · rw [m₂ x, m₁ x, List.mem_append]
    tauto
  · rw [List.nodup_append]
    refine ⟨n₁, n₂, fun x hx₁ hx₂ => ?_⟩
    exact d₂ x hx₂ ((m₁ x).2 (Or.inr hx₁))
  · rcases List.mem_append.1 hx with hx | hx
    · exact d₁ x hx
    · intro hv
      exact d₂ x hx ((m₁ x).2 (Or.inl hv))

theorem visitOk_mono {vis vis' δ : List String} (h : VisitOk vis vis' δ) :
    ∀ x ∈ vis, x ∈ vis' := fun x hx => (h.1 x).2 (Or.inl hx)

theorem visitList_delta
    (step : String → List String × List String → List String × List String)
    (hstep : ∀ e vis plan, ∃ vis' δ,
      step e (vis, plan) = (vis', plan ++ δ) ∧ VisitOk vis vis' δ) :
    ∀ ds vis plan, ∃ vis' δ,
      visitList step ds (vis, plan) = (vis', plan ++ δ) ∧
        VisitOk vis vis' δ := by
  intro ds
  induction ds with
  | nil =>
      intro vis plan
      exact ⟨vis, [], by simp [visitList], visitOk_nil vis⟩
  | cons d ds ih =>
      intro vis plan
      obtain ⟨vis₁, δ₁, he₁, hok₁⟩ := hstep d vis plan
      obtain ⟨vis₂, δ₂, he₂, hok₂⟩ := ih vis₁ (plan ++ δ₁)
      exact ⟨vis₂, δ₁ ++ δ₂,
        by rw [visitList, he₁, he₂, List.append_assoc],
        visitOk_trans hok₁ hok₂⟩

/-- Characterization of one `visit` call: it appends a block `δ` to the
plan and adds exactly the elements of `δ` to the visited set. -/
theorem visitF_delta (g : List (String × List String)) :
    ∀ fuel e vis plan, ∃ vis' δ,
      visitF g fuel e (vis, plan) = (vis', plan ++ δ) ∧
        VisitOk vis vis' δ := by
  intro fuel
  induction fuel with
  | zero =>
      intro e vis plan
      exact ⟨vis, [], by simp [visitF], visitOk_nil vis⟩
  | succ fuel ih =>
      intro e vis plan
      by_cases he : e ∈ vis
      · exact ⟨vis, [], by simp [visitF, he], visitOk_nil vis⟩
      · obtain ⟨vis', δ, heq, hok⟩ :=
          visitList_delta (visitF g fuel) ih (depsOf g e) (e :: vis) plan
        refine ⟨vis', δ ++ [e], ?_, ?_, ?_, ?_⟩
        · rw [visitF, if_neg he, heq]
          simp
        · intro x
          rw [hok.1 x]
          simp only [List.mem_cons, List.mem_append, List.mem_singleton]
          tauto
        · rw [List.nodup_append]
          refine ⟨hok.2.1, List.nodup_singleton e, fun x hx₁ hx₂ => ?_⟩
          rw [List.mem_singleton] at hx₂
          subst hx₂
          exact hok.2.2 x hx₁ (List.mem_cons_self _ _)
        · intro x hx
          rcases List.mem_append.1 hx with hx | hx
          · intro hv
            exact hok.2.2 x hx (List.mem_cons_of_mem _ hv)
          · rw [List.mem_singleton] at hx
            subst hx
            exact he

/-- One `visit` call on an unvisited endpoint ends its plan block with
the endpoint itself. -/
theorem visit_delta_last (g : List (String × List String)) (fuel : Nat)
    (e : String) (vis plan : List String) (he : e ∉ vis) :
    ∃ vis' δ,
      visitF g (fuel + 1) e (vis, plan) = (vis', plan ++ δ ++ [e]) := by
  obtain ⟨vis', δ, heq, _⟩ :=
    visitList_delta (visitF g fuel) (visitF_delta g fuel)
      (depsOf g e) (e :: vis) plan
  refine ⟨vis', δ, ?_⟩
  rw [visitF, if_neg he, heq]

/- ------------------------------------------------------------------ -/
/- Fuel stabilization (termination of the Python recursion)            -/
/- ------------------------------------------------------------------ -/

/-- Number of dependency-graph keys not yet visited. -/
def unvisitedCount (g : List (String × List String))
    (vis : List String) : Nat :=
  ((g.map Prod.fst).filter (fun x => decide (x ∉ vis))).length

theorem filter_sublist_of_imp {p q : String → Bool}
    (h : ∀ x, p x = true → q x = true) :
    ∀ l : List String, List.Sublist (l.filter p) (l.filter q) := by
  intro l
  induction l with
  | nil => exact List.nil_sublist _
  | cons a l ih =>
      by_cases hp : p a = true
      · rw [List.filter_cons_of_pos hp, List.filter_cons_of_pos (h a hp)]
        exact ih.cons₂ a
      · rw [List.filter_cons_of_neg (by simpa using hp)]
        by_cases hq : q a = true
        · rw [List.filter_cons_of_pos hq]
          exact ih.cons a
        · rw [List.filter_cons_of_neg (by simpa using hq)]
          exact ih

theorem unvisitedCount_antitone (g : List (String × List String))
    {vis vis' : List String} (h : ∀ x ∈ vis, x ∈ vis') :
    unvisitedCount g vis' ≤ unvisitedCount g vis :=
  List.Sublist.length_le (filter_sublist_of_imp (fun x hx => by
    simp only [decide_eq_true_eq] at hx ⊢
    exact fun hv => hx (h x hv)) _)

theorem unvisitedCount_lt (g : List (String × List String))
    {vis : List String} {e : String} (hk : e ∈ g.map Prod.fst)
    (he : e ∉ vis) :
    unvisitedCount g (e :: vis) < unvisitedCount g vis := by
  have hsub : List.Sublist
      ((g.map Prod.fst).filter (fun x => decide (x ∉ e :: vis)))
      ((g.map Prod.fst).filter (fun x => decide (x ∉ vis))) :=
    filter_sublist_of_imp (fun x hx => by
      simp only [decide_eq_true_eq, List.mem_cons] at hx ⊢
      exact fun hv => hx (Or.inr hv)) _
  have hmem : e ∈ (g.map Prod.fst).filter (fun x => decide (x ∉ vis)) := by
    rw [List.mem_filter]
    exact ⟨hk, by simpa using he⟩
  have hnot :
      e ∉ (g.map Prod.fst).filter (fun x => decide (x ∉ e :: vis)) := by
    rw [List.mem_filter]
    rintro ⟨-, hfalse⟩
    simp at hfalse
  refine Nat.lt_of_le_of_ne hsub.length_le (fun heqlen => ?_)
  rw [hsub.eq_of_length heqlen] at hnot
  exact hnot hmem

theorem lookupA_eq_none {α : Type} (g : List (String × α)) (e : String)
    (h : e ∉ g.map Prod.fst) : lookupA g e = none := by
  have hfind : g.find? (fun kv => kv.1 == e) = none :=
    List.find?_eq_none.2 (fun kv hkv => by
      simp only [beq_iff_eq]
      intro hkv1
      exact h (hkv1 ▸ List.mem_map_of_mem Prod.fst hkv))
  rw [lookupA, hfind]
  rfl

theorem depsOf_eq_nil (g : List (String × List String)) (e : String)
    (h : e ∉ g.map Prod.fst) : depsOf g e = [] := by
  rw [depsOf, lookupD, lookupA_eq_none g e h]
  rfl

/-- Fuel congruence: once the fuel exceeds the number of unvisited graph
keys, the result of `visit` does not depend on the fuel.  This is the
termination argument of the Python recursion: each level of recursion
shrinks the set of unvisited keys. -/
theorem visit_congr (g : List (String × List String)) :
    ∀ k f f', k < f → k < f' →
      ∀ e vis plan, unvisitedCount g vis ≤ k →
        visitF g f e (vis, plan) = visitF g f' e (vis, plan) := by
  intro k
  induction k with
  | zero =>
      intro f f' hf hf' e vis plan hb
      cases f with
      | zero => omega
      | succ f₁ =>
        cases f' with
        | zero => omega
        | succ f₁' =>
          by_cases he : e ∈ vis
          · simp [visitF, he]
          · have hk : e ∉ g.map Prod.fst := by
              intro hkmem
              have := unvisitedCount_lt g hkmem he
              omega
            have hdeps : depsOf g e = [] := depsOf_eq_nil g e hk
            simp [visitF, he, hdeps, visitList]
  | succ k ih =>
      intro f f' hf hf' e vis plan hb
      cases f with
      | zero => omega
      | succ f₁ =>
        cases f' with
        | zero => omega
        | succ f₁' =>
          by_cases he : e ∈ vis
          · simp [visitF, he]
          · by_cases hk : e ∈ g.map Prod.fst
            · have hb' : unvisitedCount g (e :: vis) ≤ k := by
                have := unvisitedCount_lt g hk he
                omega
              have hlist : ∀ ds vis₀ plan₀, unvisitedCount g vis₀ ≤ k →
                  visitList (visitF g f₁) ds (vis₀, plan₀) =
                    visitList (visitF g f₁') ds (vis₀, plan₀) := by
                intro ds
                induction ds with
                | nil =>
                    intro vis₀ plan₀ _
                    simp [visitList]
                | cons d ds ihds =>
                    intro vis₀ plan₀ hb₀
                    have hstep :
                        visitF g f₁ d (vis₀, plan₀) =
                          visitF g f₁' d (vis₀, plan₀) :=
                      ih f₁ f₁' (by omega) (by omega) d vis₀ plan₀ hb₀
                    rw [visitList, visitList, hstep]
                    obtain ⟨vis₁, δ, heq, hok⟩ := visitF_delta g f₁' d vis₀ plan₀
                    rw [heq]
                    exact ihds vis₁ (plan₀ ++ δ)
                      (le_trans
                        (unvisitedCount_antitone g (visitOk_mono hok)) hb₀)
              rw [visitF, if_neg he, visitF, if_neg he]
              rw [hlist (depsOf g e) (e :: vis) plan hb']
            · have hdeps : depsOf g e = [] := depsOf_eq_nil g e hk
              simp [visitF, he, hdeps, visitList]

theorem unvisitedCount_le (g : List (String × List String))
    (vis : List String) : unvisitedCount g vis ≤ g.length := by
  calc unvisitedCount g vis
      ≤ (g.map Prod.fst).length := List.length_filter_le _ _
    _ = g.length := List.length_map _ _

theorem visitF_fuel_eq (g : List (String × List String)) (f : Nat)
    (hf : g.length + 1 ≤ f) :
    ∀ e vp, visitF g f e vp = visitF g (g.length + 1) e vp := by
  intro e vp
  obtain ⟨vis, plan⟩ := vp
  exact visit_congr g g.length f (g.length + 1) (by omega) (by omega)
    e vis plan (unvisitedCount_le g vis)

theorem get_execution_plan_fuel_eq (a : Analyzer) (f : Nat)
    (hf : planFuel a ≤ f) (target : String) (required : List String) :
    get_execution_plan_fuel a f target required =
      get_execution_plan a target required := by
  have hfun : visitF a.dependency_graph f =
      visitF a.dependency_graph (planFuel a) := by
    funext e vp
    exact visitF_fuel_eq a.dependency_graph f hf e vp
  rw [get_execution_plan, get_execution_plan_fuel,
    get_execution_plan_fuel, execPrepass, execPrepass, hfun]

/- ------------------------------------------------------------------ -/
/- Deduplication loop lemmas                                           -/
/- ------------------------------------------------------------------ -/

theorem dedupLoop_mem : ∀ (l seen ordered : List String) (x : String),
    x ∈ dedupLoop l seen ordered ↔
      x ∈ ordered ∨ (x ∈ l ∧ x ∉ seen) := by
  intro l
  induction l with
  | nil =>
      intro seen ordered x
      simp [dedupLoop]
  | cons ep rest ih =>
      intro seen ordered x
      by_cases hep : ep ∈ seen
      · rw [dedupLoop, if_pos hep, ih]
        constructor
        · rintro (h | ⟨hr, hs⟩)
          · exact Or.inl h
          · exact Or.inr ⟨List.mem_cons_of_mem _ hr, hs⟩
        · rintro (h | ⟨hr, hs⟩)
          · exact Or.inl h
          · rcases List.mem_cons.1 hr with heq | hr'
            · subst heq
              exact absurd hep hs
            · exact Or.inr ⟨hr', hs⟩
      · rw [dedupLoop, if_neg hep, ih]
        by_cases hx : x = ep
        · subst hx
          simp [hep]
        · simp [List.mem_append, List.mem_cons, hx]

theorem dedupLoop_nodup : ∀ (l seen ordered : List String),
    ordered.Nodup → (∀ x ∈ ordered, x ∈ seen) →
    (dedupLoop l seen ordered).Nodup := by
  intro l
  induction l with
  | nil =>
      intro seen ordered hn _
      simpa [dedupLoop] using hn
  | cons ep rest ih =>
      intro seen ordered hn hsub
      by_cases hep : ep ∈ seen
      · rw [dedupLoop, if_pos hep]
        exact ih seen ordered hn hsub
      · rw [dedupLoop, if_neg hep]
        refine ih (ep :: seen) (ordered ++ [ep]) ?_ ?_
        · rw [List.nodup_append]
          refine ⟨hn, List.nodup_singleton ep, fun x hx₁ hx₂ => ?_⟩
          rw [List.mem_singleton] at hx₂
          subst hx₂
          exact hep (hsub x hx₁)
        · intro x hx
          rcases List.mem_append.1 hx with hx | hx
          · exact List.mem_cons_of_mem _ (hsub x hx)
          · rw [List.mem_singleton] at hx
            subst hx
            exact List.mem_cons_self _ _

theorem dedupLoop_eq_self : ∀ (l seen ordered : List String),
    l.Nodup → (∀ x ∈ l, x ∉ seen) →
    dedupLoop l seen ordered = ordered ++ l := by
  intro l
  induction l with
  | nil =>
      intro seen ordered _ _
      simp [dedupLoop]
  | cons ep rest ih =>
      intro seen ordered hn hd
      rw [dedupLoop, if_neg (hd ep (List.mem_cons_self _ _))]
      rw [ih (ep :: seen) (ordered ++ [ep]) (List.Nodup.of_cons hn) ?_]
      · simp
      · intro x hx
        rw [List.mem_cons]
        rintro (heq | hseen)
        · subst heq
          exact (List.nodup_cons.1 hn).1 hx
        · exact hd x (List.mem_cons_of_mem _ hx) hseen

/- ------------------------------------------------------------------ -/
/- Plan invariant: emitted plan matches the visited set                -/
/- ------------------------------------------------------------------ -/

/-- Invariant of the quiescent traversal state: the plan is
duplicate-free and lists exactly the visited endpoints. -/
def PlanInv (vp : List String × List String) : Prop :=
  vp.2.Nodup ∧ ∀ x, x ∈ vp.1 ↔ x ∈ vp.2

theorem planInv_visitF (g : List (String × List String)) (f : Nat)
    (e : String) (vp : List String × List String) (h : PlanInv vp) :
    PlanInv (visitF g f e vp) := by
  obtain ⟨vis, plan⟩ := vp
  obtain ⟨vis', δ, heq, hok⟩ := visitF_delta g f e vis plan
  rw [heq]
  obtain ⟨hn, hm⟩ := h
  constructor
  · rw [List.nodup_append]
    refine ⟨hn, hok.2.1, fun x hx₁ hx₂ => ?_⟩
    exact hok.2.2 x hx₂ ((hm x).2 hx₁)
  · intro x
    rw [hok.1 x, List.mem_append]
    constructor
    · rintro (hv | hδ)
      · exact Or.inl ((hm x).1 hv)
      · exact Or.inr hδ
    · rintro (hp | hδ)
      · exact Or.inl ((hm x).2 hp)
      · exact Or.inr hδ

theorem planInv_prepass (a : Analyzer) (f : Nat) (r : List String) :
    PlanInv (execPrepass a f r) := by
  apply foldl_preserves _ PlanInv
  · intro vp param hvp
    apply foldl_preserves _ PlanInv
    · intro vp' provider hvp'
      exact planInv_visitF _ _ _ _ hvp'
    · exact hvp
  · exact ⟨List.nodup_nil, fun x => by simp⟩

/- ------------------------------------------------------------------ -/
/- C1 and C2                                                           -/
/- ------------------------------------------------------------------ -/

/-- C2. For every analyzer state (hence every dependency graph, cyclic
ones included), the traversal of `get_execution_plan` stabilizes at the
chosen fuel — any larger fuel yields the same plan, which is the
termination content of the Python recursion — and the returned plan
contains no endpoint path more than once. -/
theorem execution_plan_terminates_and_nodup (a : Analyzer)
    (target : String) (required : List String) (fuel : Nat)
    (hf : planFuel a ≤ fuel) :
    get_execution_plan_fuel a fuel target required =
      get_execution_plan a target required ∧
    (get_execution_plan a target required).Nodup := by
  refine ⟨get_execution_plan_fuel_eq a fuel hf target required, ?_⟩
  rw [get_execution_plan, get_execution_plan_fuel]
  exact dedupLoop_nodup _ [] [] List.nodup_nil (by intro x hx; cases hx)

/-- The cyclic two-endpoint specification from the spec's testable
properties: `/a` requires `p` and provides `q`, `/b` requires `q` and
provides `p`, so the dependency graph is the cycle `/a ↔ /b`. -/
def specAB : OpenApiSpec :=
  { paths :=
      [ ("/a",
          [("get",
            { parameters := [{ name := "p", required := true }]
              responses :=
                [("200",
                  { content :=
                      [("application/json",
                        { schema :=
                            some (Schema.mk none (some "object")
                              [("q", emptySchema)] none) })] })] })])
      , ("/b",
          [("get",
            { parameters := [{ name := "q", required := true }]
              responses :=
                [("200",
                  { content :=
                      [("application/json",
                        { schema :=
                            some (Schema.mk none (some "object")
                              [("p", emptySchema)] none) })] })] })]) ]
    schemas := [] }

/-- C2 witness: the theorem applied to the cyclic analyzer of `specAB`
with surplus fuel. -/
theorem execution_plan_terminates_and_nodup_witness :
    planFuel (DependencyAnalyzer specAB) ≤ 7 ∧
    (get_execution_plan_fuel (DependencyAnalyzer specAB) 7 "/a" ["p"] =
        get_execution_plan (DependencyAnalyzer specAB) "/a" ["p"] ∧
      (get_execution_plan (DependencyAnalyzer specAB) "/a" ["p"]).Nodup) :=
  ⟨by decide,
   execution_plan_terminates_and_nodup (DependencyAnalyzer specAB)
     "/a" ["p"] 7 (by decide)⟩

/-- C1 (amended). Every execution plan is non-empty and contains the
target endpoint; and whenever the provider pre-pass has not already
visited the target, the plan's last element is the target. -/
theorem execution_plan_ends_with_target (a : Analyzer) (target : String)
    (required : List String) :
    get_execution_plan a target required ≠ [] ∧
    target ∈ get_execution_plan a target required ∧
    (target ∉ (execPrepass a (planFuel a) required).1 →
      (get_execution_plan a target required).getLast? = some target) := by
  have hinv₁ : PlanInv (execPrepass a (planFuel a) required) :=
    planInv_prepass a (planFuel a) required
  rcases hpp : execPrepass a (planFuel a) required with ⟨vis₁, plan₁⟩
  rw [hpp] at hinv₁
  have hplan : get_execution_plan a target required =
      dedupLoop
        (visitF a.dependency_graph (planFuel a) target (vis₁, plan₁)).2
        [] [] := by
    rw [get_execution_plan, get_execution_plan_fuel, hpp]
  have hinv₂ :
      PlanInv (visitF a.dependency_graph (planFuel a) target (vis₁, plan₁)) :=
    planInv_visitF _ _ _ _ hinv₁
  by_cases ht : target ∈ vis₁
  · -- the pre-pass already visited (hence emitted) the target
    obtain ⟨vis₂, δ, heq, hok⟩ :=
      visitF_delta a.dependency_graph (planFuel a) target vis₁ plan₁
    have htp : target ∈ plan₁ := (hinv₁.2 target).1 ht
    have hmem : target ∈ get_execution_plan a target required := by
      rw [hplan, heq]
      rw [dedupLoop_mem]
      exact Or.inr ⟨List.mem_append.2 (Or.inl htp), by simp⟩
    refine ⟨?_, hmem, fun hcontra => absurd ht hcontra⟩
    intro hnil
    rw [hnil] at hmem
    exact List.not_mem_nil target hmem
  · -- the final visit appends the target last
    have hfuel : planFuel a = a.dependency_graph.length + 1 := rfl
    obtain ⟨vis₂, δ, heq⟩ :=
      visit_delta_last a.dependency_graph a.dependency_graph.length
        target vis₁ plan₁ ht
    rw [← hfuel] at heq
    have hplan₂ :
        (visitF a.dependency_graph (planFuel a) target (vis₁, plan₁)).2 =
          plan₁ ++ δ ++ [target] := by
      rw [heq]
    have hnodup₂ :
        (plan₁ ++ δ ++ [target]).Nodup := by
      rw [← hplan₂]
      exact hinv₂.1
    have hfinal : get_execution_plan a target required =
        plan₁ ++ δ ++ [target] := by
      rw [hplan, hplan₂,
        dedupLoop_eq_self _ [] [] hnodup₂ (by intro x _ hx; cases hx)]
      simp
    refine ⟨?_, ?_, fun _ => ?_⟩
    · rw [hfinal]
      simp
    · rw [hfinal]
      simp
    · rw [hfinal]
      exact List.getLast?_concat _

/-- C1 witness: on `specUP` with target `/posts` the pre-pass does not
reach the target, and the plan ends with it. -/
theorem execution_plan_ends_with_target_witness :
    "/posts" ∉
      (execPrepass (DependencyAnalyzer specUP)
        (planFuel (DependencyAnalyzer specUP)) ["q"]).1 ∧
    (get_execution_plan (DependencyAnalyzer specUP) "/posts" ["q"]).getLast?
      = some "/posts" :=
  ⟨by decide,
   (execution_plan_ends_with_target (DependencyAnalyzer specUP)
      "/posts" ["q"]).2.2 (by decide)⟩

/-- C1 counterexample: on the cyclic `specAB`, calling
`get_execution_plan` for target `/a` with its required parameter `p`
returns `["/a", "/b"]`, whose last element is not the target. -/
theorem execution_plan_last_counterexample :
    get_execution_plan (DependencyAnalyzer specAB) "/a" ["p"] =
      ["/a", "/b"] ∧
    ¬ (["/a", "/b"].getLast? = some "/a") :=
  ⟨by rfl, by decide⟩

/- ------------------------------------------------------------------ -/
/- C3: provider-index membership characterization                      -/
/- ------------------------------------------------------------------ -/

theorem lookupD_addProvider (m : List (String × List String))
    (name path p : String) :
    lookupD (addProvider m name path) p [] =
      if p = name then lookupD m p [] ++ [path] else lookupD m p [] := by
  induction m with
  | nil =>
      show lookupD [(name, [path])] p [] = _
      rw [lookupD, lookupA_cons]
      rcases eq_or_ne p name with h | h
      · simp [h, lookupD, lookupA_nil]
      · simp [h, Ne.symm h, lookupD, lookupA_nil]
  | cons hd rest ih =>
      obtain ⟨k, l⟩ := hd
      by_cases hk : k = name
      · subst hk
        show lookupD (if (k == k) = true then _ else _) p [] = _
        rw [if_pos (by simp)]
        rcases eq_or_ne p k with h | h
        · subst h
          simp [lookupD, lookupA_cons]
        · simp [lookupD, lookupA_cons, Ne.symm h, h]
      · show lookupD (if (k == name) = true then _ else _) p [] = _
        rw [if_neg (by simpa using hk)]
        rcases eq_or_ne p k with h | h
        · subst h
          simp [lookupD, lookupA_cons, hk]
        · have hne : p ≠ name → lookupD ((k, l) :: rest) p [] =
              lookupD rest p [] := by
            intro _
            simp [lookupD, lookupA_cons, Ne.symm h]
          rcases eq_or_ne p name with hp | hp
          · subst hp
            simp [lookupD, lookupA_cons, Ne.symm h] at ih ⊢
            simpa [lookupD, hk] using ih
          · simp [lookupD, lookupA_cons, Ne.symm h, hp] at ih ⊢
            simpa [lookupD, hp] using ih

theorem mem_foldl_addProvider :
    ∀ (evs : List (String × String)) (m₀ : List (String × List String))
      (p x : String),
      x ∈ lookupD
        (evs.foldl (fun m reg => addProvider m reg.1 reg.2) m₀) p [] ↔
      x ∈ lookupD m₀ p [] ∨ (p, x) ∈ evs := by
  intro evs
  induction evs with
  | nil =>
      intro m₀ p x
      simp
  | cons ev evs ih =>
      intro m₀ p x
      obtain ⟨n, pa⟩ := ev
      rw [List.foldl_cons, ih]
      rw [lookupD_addProvider]
      rcases eq_or_ne p n with h | h
      · subst h
        rw [if_pos rfl]
        simp only [List.mem_append, List.mem_singleton, List.mem_cons,
          Prod.mk.injEq, true_and]
        tauto
      · simp only [if_neg h, List.mem_cons, Prod.mk.injEq]
        constructor
        · rintro (hm | he)
          · exact Or.inl hm
          · exact Or.inr (Or.inr he)
        · rintro (hm | (⟨hp, _⟩ | he))
          · exact Or.inl hm
          · exact absurd hp h
          · exact Or.inr he

theorem mem_methods_fold (schemas : List (String × Schema)) (path : String) :
    ∀ (methods : List (String × Details))
      (m₀ : List (String × List String)) (p x : String),
      x ∈ lookupD
        (methods.foldl
          (fun m md =>
            if strLower md.1 == "get" then
              (getRegs schemas path md.2).foldl
                (fun m reg => addProvider m reg.1 reg.2) m
            else m) m₀) p [] ↔
      x ∈ lookupD m₀ p [] ∨
        ∃ md ∈ methods, strLower md.1 = "get" ∧
          (p, x) ∈ getRegs schemas path md.2 := by
  intro methods
  induction methods with
  | nil =>
      intro m₀ p x
      simp
  | cons md methods ih =>
      intro m₀ p x
      rw [List.foldl_cons, ih]
      by_cases hget : (strLower md.1 == "get") = true
      · rw [if_pos hget, mem_foldl_addProvider]
        simp only [List.mem_cons]
        constructor
        · rintro ((hm | hreg) | ⟨md', hmd', hmd'get, hmd'reg⟩)
          · exact Or.inl hm
          · exact Or.inr ⟨md, Or.inl rfl, by simpa using hget, hreg⟩
          · exact Or.inr ⟨md', Or.inr hmd', hmd'get, hmd'reg⟩
        · rintro (hm | ⟨md', hmd', hmd'get, hmd'reg⟩)
          · exact Or.inl (Or.inl hm)
          · rcases hmd' with heq | hmd'
            · subst heq
              exact Or.inl (Or.inr hmd'reg)
            · exact Or.inr ⟨md', hmd', hmd'get, hmd'reg⟩
      · rw [if_neg hget]
        simp only [List.mem_cons]
        constructor
        · rintro (hm | ⟨md', hmd', hmd'get, hmd'reg⟩)
          · exact Or.inl hm
          · exact Or.inr ⟨md', Or.inr hmd', hmd'get, hmd'reg⟩
        · rintro (hm | ⟨md', hmd', hmd'get, hmd'reg⟩)
          · exact Or.inl hm
          · rcases hmd' with heq | hmd'
            · subst heq
              exact absurd (by simpa using hmd'get) (by simpa using hget)
            · exact Or.inr ⟨md', hmd', hmd'get, hmd'reg⟩

theorem mem_find_parameter_providers (sp : OpenApiSpec) (p x : String) :
    x ∈ find_parameter_providers (DependencyAnalyzer sp) p ↔
    ∃ pt ∈ sp.paths, ∃ md ∈ pt.2, strLower md.1 = "get" ∧
      (p, x) ∈ getRegs sp.schemas pt.1 md.2 := by
  have hmain : ∀ (paths : List (String × List (String × Details)))
      (m₀ : List (String × List String)),
      x ∈ lookupD
        (paths.foldl
          (fun m pt =>
            pt.2.foldl
              (fun m md =>
                if strLower md.1 == "get" then
                  (getRegs sp.schemas pt.1 md.2).foldl
                    (fun m reg => addProvider m reg.1 reg.2) m
                else m) m) m₀) p [] ↔
      x ∈ lookupD m₀ p [] ∨
        ∃ pt ∈ paths, ∃ md ∈ pt.2, strLower md.1 = "get" ∧
          (p, x) ∈ getRegs sp.schemas pt.1 md.2 := by
    intro paths
    induction paths with
    | nil =>
        intro m₀
        simp
    | cons pt paths ih =>
        intro m₀
        rw [List.foldl_cons, ih, mem_methods_fold]
        simp only [List.mem_cons]
        constructor
        · rintro ((hm | ⟨md, hmd, hget, hreg⟩) | ⟨pt', hpt', rest⟩)
          · exact Or.inl hm
          · exact Or.inr ⟨pt, Or.inl rfl, md, hmd, hget, hreg⟩
          · exact Or.inr ⟨pt', Or.inr hpt', rest⟩
        · rintro (hm | ⟨pt', hpt', rest⟩)
          · exact Or.inl (Or.inl hm)
          · rcases hpt' with heq | hpt'
            · subst heq
              exact Or.inl (Or.inr rest)
            · exact Or.inr ⟨pt', hpt', rest⟩
  have hfp : find_parameter_providers (DependencyAnalyzer sp) p =
      lookupD (analyze_parameters sp) p [] := rfl
  rw [hfp, analyze_parameters, hmain]
  simp [lookupD, lookupA_nil]

theorem mem_dedupAdd (l : List String) (y x : String) :
    x ∈ dedupAdd l y ↔ x ∈ l ∨ x = y := by
  rw [dedupAdd]
  by_cases hy : y ∈ l
  · rw [if_pos hy]
    constructor
    · exact Or.inl
    · rintro (h | h)
      · exact h
      · exact h ▸ hy
  · rw [if_neg hy]
    simp

theorem mem_foldl_dedupAdd :
    ∀ (xs acc : List String) (x : String),
      x ∈ xs.foldl dedupAdd acc ↔ x ∈ acc ∨ x ∈ xs := by
  intro xs
  induction xs with
  | nil =>
      intro acc x
      simp
  | cons y ys ih =>
      intro acc x
      rw [List.foldl_cons, ih, mem_dedupAdd]
      simp only [List.mem_cons]
      tauto

theorem mem_dedupL (xs : List String) (x : String) :
    x ∈ dedupL xs ↔ x ∈ xs := by
  rw [dedupL, mem_foldl_dedupAdd]
  simp

theorem mem_extract_properties (schemas : List (String × Schema))
    (s : Schema) (p : String) :
    p ∈ extract_properties schemas s ↔
      ∃ sub, (p, sub) ∈ (deref schemas s).properties := by
  rw [extract_properties]
  rw [mem_dedupL]
  simp only [List.mem_map]
  constructor
  · rintro ⟨⟨k, sub⟩, hmem, hk⟩
    have hk' : k = p := hk
    subst hk'
    exact ⟨sub, hmem⟩
  · rintro ⟨sub, hmem⟩
    exact ⟨(p, sub), hmem, rfl⟩

theorem mem_extract_nested_properties (schemas : List (String × Schema))
    (s : Schema) (p : String) :
    p ∈ extract_nested_properties schemas s ↔
      ∃ kv ∈ (deref schemas s).properties,
        ((kv.2.type = some "object" ∧
            p ∈ extract_properties schemas kv.2) ∨
         (kv.2.type = some "array" ∧ ∃ it, kv.2.items = some it ∧
            p ∈ extract_properties schemas it)) := by
  rw [extract_nested_properties]
  have haux : ∀ (props : List (String × Schema)) (acc : List String),
      p ∈ props.foldl
        (fun acc kv =>
          let acc :=
            if kv.2.type == some "object" then
              (extract_properties schemas kv.2).foldl dedupAdd acc
            else acc
          match kv.2.items with
          | some it =>
              if kv.2.type == some "array" then
                (extract_properties schemas it).foldl dedupAdd acc
              else acc
          | none => acc) acc ↔
      p ∈ acc ∨ ∃ kv ∈ props,
        ((kv.2.type = some "object" ∧
            p ∈ extract_properties schemas kv.2) ∨
         (kv.2.type = some "array" ∧ ∃ it, kv.2.items = some it ∧
            p ∈ extract_properties schemas it)) := by
    intro props
    induction props with
    | nil =>
        intro acc
        simp
    | cons kv props ih =>
        intro acc
        rw [List.foldl_cons, ih]
        have hstep : ∀ acc₀ : List String,
            (p ∈ (let acc₁ :=
                if kv.2.type == some "object" then
                  (extract_properties schemas kv.2).foldl dedupAdd acc₀
                else acc₀
              match kv.2.items with
              | some it =>
                  if kv.2.type == some "array" then
                    (extract_properties schemas it).foldl dedupAdd acc₁
                  else acc₁
              | none => acc₁)) ↔
            p ∈ acc₀ ∨
              ((kv.2.type = some "object" ∧
                  p ∈ extract_properties schemas kv.2) ∨
               (kv.2.type = some "array" ∧ ∃ it, kv.2.items = some it ∧
                  p ∈ extract_properties schemas it)) := by
          intro acc₀
          by_cases hobj : kv.2.type = some "object"
          · have hobjb : (kv.2.type == some "object") = true := by
              simp [hobj]
            have harrb : (kv.2.type == some "array") = false := by
              simp [hobj]
            cases hit : kv.2.items with
            | none =>
                simp [hobjb, harrb, hit, mem_foldl_dedupAdd, hobj]
            | some it =>
                simp [hobjb, harrb, hit, mem_foldl_dedupAdd, hobj]
          · have hobjb : (kv.2.type == some "object") = false := by
              simp [hobj]
            by_cases harr : kv.2.type = some "array"
            · have harrb : (kv.2.type == some "array") = true := by
                simp [harr]
              cases hit : kv.2.items with
              | none =>
                  simp [hobjb, harrb, hit, mem_foldl_dedupAdd, hobj, harr]
              | some it =>
                  simp [hobjb, harrb, hit, mem_foldl_dedupAdd, hobj, harr]
            · have harrb : (kv.2.type == some "array") = false := by
                simp [harr]
              cases hit : kv.2.items with
              | none =>
                  simp [hobjb, harrb, hit, hobj, harr]
              | some it =>
                  simp [hobjb, harrb, hit, hobj, harr]
        simp only [hstep]
        simp only [List.mem_cons]
        constructor
        · rintro (h | h)
          · rcases h with h | h
            · exact Or.inl h
            · exact Or.inr ⟨kv, Or.inl rfl, h⟩
          · obtain ⟨kv', hkv', hkv'c⟩ := h
            exact Or.inr ⟨kv', Or.inr hkv', hkv'c⟩
        · rintro (h | ⟨kv', hkv', hkv'c⟩)
          · exact Or.inl (Or.inl h)
          · rcases hkv' with heq | hkv'
            · subst heq
              exact Or.inl (Or.inr hkv'c)
            · exact Or.inr ⟨kv', hkv', hkv'c⟩
  rw [haux]
  simp

/-- The nested-exposure predicate of the spec ("a property named `p`
directly, through one schema-reference hop, or nested one level inside
an object-typed property or an array's item schema"). -/
def schemaExposes (schemas : List (String × Schema)) (s : Schema)
    (p : String) : Prop :=
  (∃ sub, (p, sub) ∈ (deref schemas s).properties) ∨
  ∃ kv ∈ (deref schemas s).properties,
    ((kv.2.type = some "object" ∧
        ∃ sub, (p, sub) ∈ (deref schemas kv.2).properties) ∨
     (kv.2.type = some "array" ∧ ∃ it, kv.2.items = some it ∧
        ∃ sub, (p, sub) ∈ (deref schemas it).properties))

theorem mem_getRegs (schemas : List (String × Schema)) (path : String)
    (details : Details) (p x : String) :
    (p, x) ∈ getRegs schemas path details ↔
      (x = path ∧
        ((∃ rp ∈ details.responses, ∃ mo ∈ rp.2.content,
            schemaExposes schemas ((mo.2.schema).getD emptySchema) p) ∨
         (∃ par ∈ details.parameters,
            par.name = p ∧ da_is_foreign_key p = true))) := by
  rw [getRegs]
  simp only [List.mem_append, List.mem_flatMap, List.mem_map,
    List.mem_filter, Prod.mk.injEq]
  constructor
  · rintro (⟨rp, hrp, mo, hmo, prop, hprop, hp, hx⟩ |
      ⟨par, ⟨hpar, hfk⟩, hp, hx⟩)
    · subst hp
      refine ⟨hx.symm, Or.inl ⟨rp, hrp, mo, hmo, ?_⟩⟩
      rcases hprop with hdir | hnest
      · exact Or.inl ((mem_extract_properties _ _ _).1 hdir)
      · obtain ⟨kv, hkv, hc⟩ :=
          (mem_extract_nested_properties _ _ _).1 hnest
        refine Or.inr ⟨kv, hkv, ?_⟩
        rcases hc with ⟨ht, hmem⟩ | ⟨ht, it, hit, hmem⟩
        · exact Or.inl ⟨ht, (mem_extract_properties _ _ _).1 hmem⟩
        · exact Or.inr ⟨ht, it, hit, (mem_extract_properties _ _ _).1 hmem⟩
    · subst hp
      exact ⟨hx.symm, Or.inr ⟨par, hpar, rfl, hfk⟩⟩
  · rintro ⟨hx, ⟨rp, hrp, mo, hmo, hexp⟩ | ⟨par, hpar, hname, hfk⟩⟩
    · subst hx
      refine Or.inl ⟨rp, hrp, mo, hmo, p, ?_, rfl, rfl⟩
      rcases hexp with hdir | ⟨kv, hkv, hc⟩
      · exact Or.inl ((mem_extract_properties _ _ _).2 hdir)
      · refine Or.inr
          ((mem_extract_nested_properties _ _ _).2 ⟨kv, hkv, ?_⟩)
        rcases hc with ⟨ht, hmem⟩ | ⟨ht, it, hit, hmem⟩
        · exact Or.inl ⟨ht, (mem_extract_properties _ _ _).2 hmem⟩
        · exact Or.inr ⟨ht, it, hit, (mem_extract_properties _ _ _).2 hmem⟩
    · subst hx
      exact Or.inr ⟨par, ⟨hpar, hname ▸ hfk⟩, hname, rfl⟩

/-- C3 (amended).  An endpoint path appears in the built provider index
for parameter `p` iff one of its GET operations exposes `p` in the
schema of some declared response — any status code, not only success
responses — directly, through one `$ref` hop, or nested one level in an
object-typed property or an array's item schema, OR declares `p` as a
parameter whose name ends in the case-sensitive suffix `Id`. -/
theorem provider_index_characterization (sp : OpenApiSpec)
    (p path : String) :
    path ∈ find_parameter_providers (DependencyAnalyzer sp) p ↔
    ∃ pt ∈ sp.paths, pt.1 = path ∧ ∃ md ∈ pt.2, strLower md.1 = "get" ∧
      ((∃ rp ∈ md.2.responses, ∃ mo ∈ rp.2.content,
          schemaExposes sp.schemas ((mo.2.schema).getD emptySchema) p) ∨
       (∃ par ∈ md.2.parameters,
          par.name = p ∧ da_is_foreign_key p = true)) := by
  rw [mem_find_parameter_providers]
  constructor
  · rintro ⟨pt, hpt, md, hmd, hget, hreg⟩
    obtain ⟨hx, hrest⟩ := (mem_getRegs _ _ _ _ _).1 hreg
    exact ⟨pt, hpt, hx.symm, md, hmd, hget, hrest⟩
  · rintro ⟨pt, hpt, hpath, md, hmd, hget, hrest⟩
    exact ⟨pt, hpt, md, hmd, hget,
      (mem_getRegs _ _ _ _ _).2 ⟨hpath.symm, hrest⟩⟩

/-- The frozen claim's foreign-key name pattern (case-insensitive: ends
with `Id`/`Ids`, equals `id`, ends with `_id`, or equals `uuid`). -/
def claimFKPattern (name : String) : Bool :=
  strEndsWith (strLower name) "id" || strEndsWith (strLower name) "ids" ||
    strLower name == "id" || strEndsWith name "_id" ||
    strLower name == "uuid"

/-- The frozen claim's provider condition: GET success response exposes
`p`, or a declared parameter named `p` matches `claimFKPattern`. -/
def claimProvides (sp : OpenApiSpec) (path p : String) : Prop :=
  ∃ pt ∈ sp.paths, pt.1 = path ∧ ∃ md ∈ pt.2, strLower md.1 = "get" ∧
    ((∃ rp ∈ md.2.responses, strStartsWith rp.1 "2" = true ∧
        ∃ mo ∈ rp.2.content,
          schemaExposes sp.schemas ((mo.2.schema).getD emptySchema) p) ∨
     (∃ par ∈ md.2.parameters, par.name = p ∧ claimFKPattern p = true))

/-- A one-endpoint spec declaring a parameter `user_id` and no
responses. -/
def specFK : OpenApiSpec :=
  { paths := [("/u", [("get", { parameters := [{ name := "user_id" }]
                                responses := [] })])]
    schemas := [] }

/-- C3 counterexample: `user_id` matches the claim's case-insensitive
foreign-key pattern, so the claim asserts `/u` is a provider of
`user_id`; the code's pattern is the case-sensitive `.*Id$`, so the
built index is empty and the claimed equivalence fails on `specFK`. -/
theorem provider_index_counterexample :
    ¬ (("/u" ∈ find_parameter_providers (DependencyAnalyzer specFK)
          "user_id") ↔
        claimProvides specFK "/u" "user_id") := by
  intro h
  have hL : "/u" ∉ find_parameter_providers (DependencyAnalyzer specFK)
      "user_id" := by decide
  have hR : claimProvides specFK "/u" "user_id" := by
    refine ⟨("/u", [("get", { parameters := [{ name := "user_id" }]
                              responses := [] })]),
      by simp [specFK], rfl,
      ("get", { parameters := [{ name := "user_id" }], responses := [] }),
      by simp, by decide, Or.inr ⟨{ name := "user_id" }, by simp, rfl,
      by decide⟩⟩
  exact hL (h.2 hR)


/- ------------------------------------------------------------------ -/
/- Parameter detector (`cli/parameter_detector.py`)                    -/
/- ------------------------------------------------------------------ -/

/-- `ParameterType`: types of parameters the detector can detect. -/
inductive ParameterType where
  | FOREIGN_KEY
  | ENUM
  | DATE
  | DATETIME
  | PAGINATION
  | FILTER
  | SORT
  | SEARCH
  | BOOLEAN
  | NUMERIC
  | STRING
  | UNKNOWN
deriving DecidableEq

/-- `ParameterInfo`: information about a detected parameter. -/
structure ParameterInfo where
  name : String
  type : ParameterType
  likely_provider : Option String := none
  is_required : Bool := false
  schema_type : Option String := none
  enum_values : Option (List String) := none
  pattern : Option String := none
deriving DecidableEq

/-- `ParameterDetector.id_patterns`: `.*[Ii]d$`, `^id$` (i), `.*_id$`,
`.*[Ii]ds$`, `^uuid$` (i), matched with `re.match`. -/
def is_foreign_key (param_name : String) : Bool :=
  strEndsWith param_name "Id" || strEndsWith param_name "id" ||
    strLower param_name == "id" ||
    strEndsWith param_name "_id" ||
    strEndsWith param_name "Ids" || strEndsWith param_name "ids" ||
    strLower param_name == "uuid"

/-- `ParameterDetector.reference_patterns`: parameter names mapped to
likely endpoint providers. -/
def reference_patterns : List (String × String) :=
  [ ("merchantId", "merchants"), ("merchantIds", "merchants")
  , ("locationId", "locations"), ("locationIds", "locations")
  , ("userId", "users"), ("userIds", "users")
  , ("groupId", "groups"), ("groupIds", "groups")
  , ("roleId", "roles"), ("channelId", "channels")
  , ("orderId", "orders"), ("incidentId", "incidents")
  , ("rewardId", "rewards"), ("surveyId", "surveys")
  , ("questionnaireId", "questionnaires"), ("snapshotId", "snapshots")
  , ("deliveryServiceId", "delivery-services"), ("partnerId", "partners") ]

/-- `ParameterDetector.pagination_params`. -/
def pagination_params : List String :=
  ["page", "pagesize", "limit", "offset", "skip",
   "per_page", "perpage", "size", "start", "cursor"]

/-- `ParameterDetector.date_patterns`, matched with `re.match`. -/
def date_patterns_match (name : String) : Bool :=
  strEndsWith name "Date" || strEndsWith name "date" ||
    strEndsWith name "DateTime" || strEndsWith name "Datetime" ||
    strEndsWith name "dateTime" || strEndsWith name "datetime" ||
    strEndsWith name "Time" || strEndsWith name "time" ||
    strEndsWith name "At" || strEndsWith name "at" ||
    strEndsWith name "Utc" || strEndsWith name "utc" ||
    strLower name == "created" || strLower name == "updated" ||
    strLower name == "modified" || strLower name == "deleted"

/-- `ParameterDetector.filter_patterns`, matched with `re.match`. -/
def filter_patterns_match (name : String) : Bool :=
  strStartsWith (strLower name) "filter" ||
    strStartsWith (strLower name) "search" ||
    strStartsWith (strLower name) "query" ||
    strEndsWith name "Filter" || strEndsWith name "filter" ||
    strEndsWith name "Search" || strEndsWith name "search" ||
    strEndsWith name "Query" || strEndsWith name "query"

/-- `re.sub(r'[Ii]ds?$|_id$', '', param_name)`: the regex only matches a
suffix, and the leftmost match wins, so a three-character suffix
(`Ids`/`ids`/`_id`) is stripped before a two-character one (`Id`/`id`). -/
def strip_id_suffix (param_name : String) : String :=
  if strEndsWith param_name "Ids" || strEndsWith param_name "ids" ||
      strEndsWith param_name "_id" then
    strDropRight param_name 3
  else if strEndsWith param_name "Id" || strEndsWith param_name "id" then
    strDropRight param_name 2
  else param_name

/-- Case-insensitive scan of `reference_patterns`
(`for key, value in ...: if key.lower() == param_lower`). -/
def reference_ci_lookup (param_name : String) : Option String :=
  (reference_patterns.find?
      (fun kv => strLower kv.1 == strLower param_name)).map
    (fun kv => kv.2)

/-- `ParameterDetector.get_likely_provider`: direct table lookup, then
case-insensitive table lookup, then strip the id suffix, lower-case and
append `s` (`None` when stripping leaves nothing). -/
def get_likely_provider (param_name : String) : Option String :=
  match lookupA reference_patterns param_name with
  | some v => some v
  | none =>
      match reference_ci_lookup param_name with
      | some v => some v
      | none =>
          if is_foreign_key param_name then
            let base := strip_id_suffix param_name
            if base != "" then some (strLower base ++ "s") else none
          else none

/-- `ParameterDetector.detect_parameter_type`. -/
def detect_parameter_type (param_name : String) (param_schema : PDict) :
    ParameterInfo :=
  let info : ParameterInfo :=
    { name := param_name
      type := ParameterType.UNKNOWN
      is_required := param_schema.required
      schema_type := param_schema.type }
  match param_schema.enum with
  | some vs => { info with type := ParameterType.ENUM, enum_values := some vs }
  | none =>
    if is_foreign_key param_name then
      { info with type := ParameterType.FOREIGN_KEY
                  likely_provider := get_likely_provider param_name }
    else if strLower param_name ∈ pagination_params then
      { info with type := ParameterType.PAGINATION }
    else if date_patterns_match param_name then
      if param_schema.format == some "date-time" ||
          strContainsSub (strLower param_name) "datetime" then
        { info with type := ParameterType.DATETIME }
      else
        { info with type := ParameterType.DATE }
    else if filter_patterns_match param_name then
      if strContainsSub (strLower param_name) "search" then
        { info with type := ParameterType.SEARCH }
      else
        { info with type := ParameterType.FILTER }
    else
      let schema_type := strLower ((param_schema.type).getD "")
      let info :=
        if schema_type == "boolean" then
          { info with type := ParameterType.BOOLEAN }
        else if schema_type == "integer" || schema_type == "number" then
          { info with type := ParameterType.NUMERIC }
        else if schema_type == "string" then
          { info with type := ParameterType.STRING }
        else info
      match param_schema.pattern with
      | some pat => { info with pattern := some pat }
      | none => info

/- ------------------------------------------------------------------ -/
/- C9: likely provider inference                                       -/
/- ------------------------------------------------------------------ -/

/-- The claim's description of the fallback: strip the id suffix and
append `s`, with no other transformation, and with the table consulted
first (exactly or case-insensitively). -/
def likelyProviderClaim (param_name : String) : Option String :=
  match lookupA reference_patterns param_name with
  | some v => some v
  | none =>
      match reference_ci_lookup param_name with
      | some v => some v
      | none => some (strip_id_suffix param_name ++ "s")

/-- The amended description: case-insensitive table match, else the id
suffix is stripped, the remainder lower-cased with `s` appended, and no
hint at all when stripping leaves the empty string. -/
def likelyProviderAmended (param_name : String) : Option String :=
  match reference_ci_lookup param_name with
  | some v => some v
  | none =>
      let base := strip_id_suffix param_name
      if base = "" then none else some (strLower base ++ "s")

theorem lookupA_imp_ci (t : List (String × String)) :
    ∀ (name v : String),
      (t.map (fun kv => strLower kv.1)).Nodup →
      lookupA t name = some v →
      (t.find? (fun kv => strLower kv.1 == strLower name)).map
          (fun kv => kv.2) = some v := by
  induction t with
  | nil =>
      intro name v _ h
      rw [lookupA_nil] at h
      cases h
  | cons hd rest ih =>
      intro name v hnd h
      obtain ⟨k, w⟩ := hd
      rw [lookupA_cons] at h
      by_cases hk : k = name
      · subst hk
        rw [if_pos rfl] at h
        cases h
        rw [List.find?_cons_of_pos _ (by simp)]
        rfl
      · rw [if_neg hk] at h
        have hmem : ∃ kv ∈ rest, kv.1 = name := by
          obtain ⟨kv, hfind⟩ :=
            Option.map_eq_some'.1 h
          refine ⟨kv, List.mem_of_find?_eq_some hfind.1, ?_⟩
          have := List.find?_some hfind.1
          simpa using this
        rw [List.map_cons] at hnd
        by_cases hci : strLower k = strLower name
        · exfalso
          obtain ⟨kv, hkv, hkvname⟩ := hmem
          have h1 : strLower name ∈ rest.map (fun kv => strLower kv.1) :=
            List.mem_map.2 ⟨kv, hkv, by rw [hkvname]⟩
          have h2 := (List.nodup_cons.1 hnd).1
          rw [hci] at h2
          exact h2 h1
        · rw [List.find?_cons_of_neg _ (by simpa using hci)]
          exact ih name v (List.nodup_cons.1 hnd).2 h

/-- C9 (amended). For every parameter classified as ForeignKey, the
computed `likely_provider` is: the mapped resource name on an exact or
case-insensitive hit in the built-in reference table; otherwise the name
with its id suffix stripped, lower-cased, with `s` appended (no
irregular-plural handling, so `categoryId` yields `categorys`), and no
hint at all when stripping leaves nothing (name `id`/`Id` alone). -/
theorem likely_provider_characterization (param_name : String)
    (p : PDict)
    (h : (detect_parameter_type param_name p).type =
      ParameterType.FOREIGN_KEY) :
    (detect_parameter_type param_name p).likely_provider =
      likelyProviderAmended param_name := by
  have htable : (reference_patterns.map (fun kv => strLower kv.1)).Nodup := by
    decide
  have henum : p.enum = none := by
    rcases he : p.enum with _ | vs
    · rfl
    · rw [detect_parameter_type] at h
      simp only [he] at h
      cases h
  have hfk : is_foreign_key param_name = true := by
    by_contra hnfk
    rw [detect_parameter_type] at h
    simp only [henum] at h
    rw [if_neg (by simpa using hnfk)] at h
    by_cases hpag : strLower param_name ∈ pagination_params
    · rw [if_pos hpag] at h
      cases h
    · rw [if_neg hpag] at h
      by_cases hdate : date_patterns_match param_name = true
      · rw [if_pos hdate] at h
        by_cases hdt : (p.format == some "date-time" ||
            strContainsSub (strLower param_name) "datetime") = true
        · rw [if_pos hdt] at h
          cases h
        · rw [if_neg hdt] at h
          cases h
      · rw [if_neg (by simpa using hdate)] at h
        by_cases hfil : filter_patterns_match param_name = true
        · rw [if_pos hfil] at h
          by_cases hsea : strContainsSub (strLower param_name) "search" = true
          · rw [if_pos hsea] at h
            cases h
          · rw [if_neg (by simpa using hsea)] at h
            cases h
        · rw [if_neg (by simpa using hfil)] at h
          rcases hpat : p.pattern with _ | pat
          · simp only [hpat] at h
            by_cases hb : strLower ((p.type).getD "") == "boolean"
            · simp only [hb, if_pos] at h
              cases h
            · simp only [hb] at h
              by_cases hn : (strLower ((p.type).getD "") == "integer" ||
                  strLower ((p.type).getD "") == "number") = true
              · simp only [hn, if_pos] at h
                cases h
              · simp only [hn] at h
                by_cases hs : strLower ((p.type).getD "") == "string"
                · simp only [hs, if_pos] at h
                  cases h
                · simp only [hs] at h
                  rw [if_neg (by simpa using hb),
                    if_neg (by simpa using hn),
                    if_neg (by simpa using hs)] at h
                  cases h
          · simp only [hpat] at h
            by_cases hb : strLower ((p.type).getD "") == "boolean"
            · simp only [hb, if_pos] at h
              cases h
            · simp only [hb] at h
              by_cases hn : (strLower ((p.type).getD "") == "integer" ||
                  strLower ((p.type).getD "") == "number") = true
              · simp only [hn, if_pos] at h
                cases h
              · simp only [hn] at h
                by_cases hs : strLower ((p.type).getD "") == "string"
                · simp only [hs, if_pos] at h
                  cases h
                · simp only [hs] at h
                  rw [if_neg (by simpa using hb),
                    if_neg (by simpa using hn),
                    if_neg (by simpa using hs)] at h
                  cases h
  have hlp : (detect_parameter_type param_name p).likely_provider =
      get_likely_provider param_name := by
    rw [detect_parameter_type]
    simp only [henum]
    rw [if_pos hfk]
  rw [hlp, get_likely_provider, likelyProviderAmended]
  rcases hexact : lookupA reference_patterns param_name with _ | v
  · simp only [reference_ci_lookup]
    rcases hci : (reference_patterns.find?
        (fun kv => strLower kv.1 == strLower param_name)).map
        (fun kv => kv.2) with _ | w
    · simp only [hfk, if_pos]
      by_cases hbase : strip_id_suffix param_name = ""
      · rw [hbase]
        simp
      · rw [if_pos (by simpa using hbase), if_neg hbase]
    · rw [hci]
  · have := lookupA_imp_ci reference_patterns param_name v htable hexact
    rw [reference_ci_lookup, this]

/-- C9 witness: `categoryId` is classified ForeignKey and its
likely provider is the naive plural `categorys`. -/
theorem likely_provider_characterization_witness :
    (detect_parameter_type "categoryId" { name := "categoryId" }).type =
      ParameterType.FOREIGN_KEY ∧
    (detect_parameter_type "categoryId"
        { name := "categoryId" }).likely_provider =
      likelyProviderAmended "categoryId" ∧
    likelyProviderAmended "categoryId" = some "categorys" :=
  ⟨by decide,
   likely_provider_characterization "categoryId" { name := "categoryId" }
     (by decide),
   by decide⟩

/-- C9 counterexample: `ProductId` is classified ForeignKey; the claim's
rule (table, else stripped name + `s`) yields `Products`, but the code
lower-cases the stripped base and yields `products`. -/
theorem likely_provider_counterexample :
    (detect_parameter_type "ProductId" { name := "ProductId" }).type =
      ParameterType.FOREIGN_KEY ∧
    likelyProviderClaim "ProductId" = some "Products" ∧
    (detect_parameter_type "ProductId"
        { name := "ProductId" }).likely_provider = some "products" ∧
    ¬ ((detect_parameter_type "ProductId"
        { name := "ProductId" }).likely_provider =
      likelyProviderClaim "ProductId") :=
  ⟨by decide, by decide, by decide, by decide⟩

/- ------------------------------------------------------------------ -/
/- Context store (`cli/context.py`)                                    -/
/- ------------------------------------------------------------------ -/

/-- Replace the value at a key (first occurrence) or append a new entry,
dict assignment `d[k] = v`. -/
def setKey {α : Type} (l : List (String × α)) (k : String) (v : α) :
    List (String × α) :=
  match l with
  | [] => [(k, v)]
  | (k', v') :: rest =>
      if k' == k then (k, v) :: rest else (k', v') :: setKey rest k v

/-- `save_context`: merge `data` into the stored context
(`existing.update(data)`). -/
def save_context (ctx : List (String × Val)) (data : List (String × Val)) :
    List (String × Val) :=
  data.foldl (fun c kv => setKey c kv.1 kv.2) ctx

/-- `get_value`: `get_context().get(key)`. -/
def get_value (ctx : List (String × Val)) (key : String) : Option Val :=
  lookupA ctx key

/- ------------------------------------------------------------------ -/
/- Resolver state, oracles, executor (`cli/commands/system.py`)        -/
/- ------------------------------------------------------------------ -/

/-- Observable interactions of the resolver: human prompts and API
executor calls. -/
inductive REvent where
  | prompt (label : String)
  | confirmAsk (label : String)
  | choiceAsk (label : String) (choices : List String)
  | execCall (endpoint : String)

/-- Resolver state: the on-disk context store and the trace of
interactions performed so far. -/
structure RState where
  ctx : List (String × Val)
  trace : List REvent

/-- The external collaborators: `Prompt.ask`, `Confirm.ask`,
`Prompt.ask(choices=...)`, the row-number inputs typed into the
selection table, and `ApiExecutor.call` (an `Except` models a raised
exception). -/
structure Oracles where
  askValue : String → String
  askYesNo : String → Bool
  askChoice : String → List String → String
  rowChoices : List String
  exec : String → List (String × Val) → Except String (Option Val)

/-- The endpoints wired into `execute_endpoint`'s client mapping. -/
def mappedEndpoints : List String :=
  ["/merchants", "/locations", "/groups"]

/-- `execute_endpoint`: call the mapped client method inside
`try/except`; an unmapped endpoint or a raised exception yields `None`
after a printed message. -/
def execute_endpoint (O : Oracles) (endpoint : String)
    (params : List (String × Val)) (st : RState) : Option Val × RState :=
  if endpoint ∈ mappedEndpoints then
    let st := { st with trace := st.trace ++ [REvent.execCall endpoint] }
    match O.exec endpoint params with
    | Except.error _ => (none, st)
    | Except.ok r => (r, st)
  else (none, st)

/-- `rank_provider`: lower is better; +10 for a parameterized path, plus
the endpoint's own required-parameter count. -/
def rank_provider (a : Analyzer) (endpoint : String) : Nat :=
  let score := if strContainsSub endpoint "\x7b" then 10 else 0
  match lookupA a.paths endpoint with
  | some methods =>
      match lookupA methods "get" with
      | some details =>
          score + (details.parameters.filter (fun p => p.required)).length
      | none => score
  | none => score

/-- Stable insertion for sorting by key (equal keys keep their input
order, as Python's stable `list.sort` does). -/
def insertByKey (key : String → Nat) (x : String) :
    List String → List String
  | [] => [x]
  | y :: ys => if key y < key x then y :: insertByKey key x ys
               else x :: y :: ys

/-- `providers.sort(key=...)`: a stable sort by score. -/
def sortByKey (key : String → Nat) (l : List String) : List String :=
  l.foldr (insertByKey key) []

/- ------------------------------------------------------------------ -/
/- Detector extraction helpers (`extract_id_from_response`)            -/
/- ------------------------------------------------------------------ -/

/-- `ParameterDetector._camel_to_snake`:
`re.sub(r'(?<!^)(?=[A-Z])', '_', text).lower()`. -/
def camel_to_snake (text : String) : String :=
  match text.data with
  | [] => ""
  | c :: rest =>
      strLower (String.mk
        (c :: rest.flatMap (fun ch => if ch.isUpper then ['_', ch] else [ch])))

/-- Python `str.title()` on a word: first letter upper, rest lower. -/
def pyTitle (s : String) : String :=
  match (strLower s).data with
  | [] => ""
  | c :: cs => String.mk (c.toUpper :: cs)

/-- `ParameterDetector._snake_to_camel`. -/
def snake_to_camel (text : String) : String :=
  match splitChar '_' text.data [] with
  | [] => ""
  | c :: rest => String.join (c :: rest.map pyTitle)

/-- The value-scanning loop of `_find_nested_value`: recurse into each
dict-typed value with the supplied step, taking the first hit. -/
def findNestedVals (step : Val → Val) : List Val → Val
  | [] => Val.vNull
  | v :: vs =>
      match v with
      | Val.vObj _ =>
          match step v with
          | Val.vNull => findNestedVals step vs
          | r => r
      | _ => findNestedVals step vs

/-- `ParameterDetector._find_nested_value` with its `max_depth` fuel
(`3` at every call site). -/
def find_nested_value (key : String) : Nat → Val → Val
  | 0, _ => Val.vNull
  | d + 1, Val.vObj l =>
      (match lookupA l key with
       | some v => v
       | none =>
           findNestedVals (find_nested_value key d)
             (l.map (fun kv => kv.2)))
  | _ + 1, _ => Val.vNull

theorem sizeOf_lookupA_lt {l : List (String × Val)} {k : String} {v : Val}
    (h : lookupA l k = some v) : sizeOf v < sizeOf l := by
  rw [lookupA] at h
  obtain ⟨kv, hfind, hv⟩ := Option.map_eq_some'.1 h
  have h1 : sizeOf kv < sizeOf l :=
    List.sizeOf_lt_of_mem (List.mem_of_find?_eq_some hfind)
  obtain ⟨a, b⟩ := kv
  cases hv
  show sizeOf b < sizeOf l
  simp only [Prod.mk.sizeOf_spec] at h1
  omega

/-- `ParameterDetector._find_any_id_field`: first id-shaped field of the
dict, else descend into `data` (a dict, or the first element of a
list). -/
def find_any_id_field : Val → Val
  | Val.vObj l =>
      (match l.find? (fun kv => strLower kv.1 == "id" ||
          strEndsWith (strLower kv.1) "id") with
       | some kv => kv.2
       | none =>
           match hdata : lookupA l "data" with
           | some (Val.vObj l2) => find_any_id_field (Val.vObj l2)
           | some (Val.vList (x :: _)) => find_any_id_field x
           | _ => Val.vNull)
  | _ => Val.vNull
termination_by v => sizeOf v
decreasing_by
  · have h1 := sizeOf_lookupA_lt hdata
    simp only [Val.vObj.sizeOf_spec] at h1 ⊢
    omega
  · have h1 := sizeOf_lookupA_lt hdata
    simp only [Val.vObj.sizeOf_spec, Val.vList.sizeOf_spec,
      List.cons.sizeOf_spec] at h1 ⊢
    omega

/-- The `'data'`-wrapper stage of `extract_id_from_response`. -/
def dataWrapperLookup (l : List (String × Val)) (param_name : String) :
    Option Val :=
  match lookupA l "data" with
  | some (Val.vList (item :: _)) =>
      (match item with
       | Val.vObj li => lookupA li param_name
       | _ => none)
  | some (Val.vObj li) => lookupA li param_name
  | _ => none

/-- First non-`None` result, modelling an early-returning loop. -/
def firstNonNull : List Val → Option Val
  | [] => none
  | v :: vs => if v.isNull then firstNonNull vs else some v

/-- The case-variation stage of `extract_id_from_response`: nested
search (depth 3) for the name and its case variants, in order. -/
def tryVariations (l : List (String × Val)) (param_name : String) :
    Option Val :=
  firstNonNull
    ([param_name, strLower param_name, strUpper param_name,
      camel_to_snake param_name, snake_to_camel param_name].map
      (fun variant => find_nested_value variant 3 (Val.vObj l)))

/-- `ParameterDetector.extract_id_from_response`.  Python returns `None`
both for "absent" and for a stored `null`, so the model returns `Val`
with `vNull` for `None`.  A non-dict argument is modelled as a miss (the
call sites only reach this function with a dict or after dict-shaped
guards). -/
def extract_id_from_response (response_data : Val) (param_name : String) :
    Val :=
  match response_data with
  | Val.vObj l =>
      (match lookupA l param_name with
       | some v => v
       | none =>
           match dataWrapperLookup l param_name with
           | some v => v
           | none =>
               match tryVariations l param_name with
               | some v => v
               | none =>
                   if is_foreign_key param_name then
                     find_any_id_field (Val.vObj l)
                   else Val.vNull)
  | _ => Val.vNull

/- ------------------------------------------------------------------ -/
/- `select_from_response`                                              -/
/- ------------------------------------------------------------------ -/

/-- Python list indexing `data[i]` with negative indices;
out-of-range raises (here: `none`). -/
def pyIndex (data : List Val) (i : Int) : Option Val :=
  if 0 ≤ i then
    if h : i.toNat < data.length then some (data.get ⟨i.toNat, h⟩) else none
  else
    let j : Int := (data.length : Int) + i
    if 0 ≤ j then
      if h : j.toNat < data.length then some (data.get ⟨j.toNat, h⟩)
      else none
    else none

/-- The `while True` row-selection loop of `select_from_response`,
driven by the modelled sequence of human inputs; when the sequence runs
out the unbounded interactive retry cannot be modelled further and the
loop is truncated with `None`. -/
def rowSelectLoop (data : List Val) (param_name : String)
    (rowPrompt : String) : List String → RState → Val × RState
  | [], st => (Val.vNull, st)
  | choice :: rest, st =>
      let st := { st with trace := st.trace ++ [REvent.prompt rowPrompt] }
      match choice.toInt? with
      | some i =>
          if h : 0 ≤ i ∧ i.toNat < data.length then
            let value :=
              extract_id_from_response (data.get ⟨i.toNat, h.2⟩) param_name
            if truthy value then (value, st) else (Val.vNull, st)
          else rowSelectLoop data param_name rowPrompt rest st
      | none => rowSelectLoop data param_name rowPrompt rest st

/-- `select_from_response`: unwrap the `data` field, present a table of
dict rows for selection, handle scalar lists, else fall back to direct
extraction from the response. -/
def select_from_response (O : Oracles) (response : Val)
    (param_name endpoint : String) (st : RState) : Val × RState :=
  let data := match response with
    | Val.vObj l => (lookupA l "data").getD response
    | _ => response
  match data with
  | Val.vList (item :: rest) =>
      (match item with
       | Val.vObj _ =>
           let maxIdx := min ((item :: rest).length - 1) 19
           rowSelectLoop (item :: rest) param_name
             ("Enter row number (0-" ++ toString maxIdx ++ ")")
             O.rowChoices st
       | _ =>
           let st := { st with trace :=
             st.trace ++ [REvent.prompt "Select index"] }
           let choice := O.askValue "Select index"
           let v := match choice.toInt? with
             | some i => (pyIndex (item :: rest) i).getD item
             | none => item
           (v, st))
  | _ => (extract_id_from_response response param_name, st)

/- ------------------------------------------------------------------ -/
/- `resolve_parameter_with_dependency`                                 -/
/- ------------------------------------------------------------------ -/

/-- The manual-entry fallback used verbatim three times in
`resolve_parameter_with_dependency` (circular dependency, no provider,
failed auto-resolution): prompt for a value, persist it, return it. -/
def resolveManual (O : Oracles) (param_name : String) (st : RState) :
    Val × RState :=
  let label := "Enter value for " ++ param_name
  let st := { st with trace := st.trace ++ [REvent.prompt label] }
  let v := Val.vStr (O.askValue label)
  (v, { st with ctx := save_context st.ctx [(param_name, v)] })

/-- The recursive-satisfaction loop: resolve each required parameter of
the selected provider with the same resolving stack, collecting the
non-`None` values as the provider's call arguments. -/
def resolveDeps
    (resolveStep : String → PDict → String → List String → RState →
      Val × RState)
    (provider : String) (stack : List String) :
    List PDict → List (String × Val) × RState →
      List (String × Val) × RState
  | [], acc => acc
  | dp :: rest, (params, st) =>
      if dp.required then
        let r := resolveStep dp.name dp provider stack st
        let params' := if (r.1).isNull then params
          else setKey params dp.name r.1
        resolveDeps resolveStep provider stack rest (params', r.2)
      else resolveDeps resolveStep provider stack rest (params, st)

/-- What happens after the provider endpoint was executed: a truthy
response goes through `select_from_response`, a non-`None` extracted
value is persisted and returned, anything else degrades to manual
entry. -/
def resolveAfterExec (O : Oracles) (param_name selected_provider : String)
    (er : Option Val × RState) : Val × RState :=
  match er.1 with
  | some response =>
      if truthy response then
        let sr := select_from_response O response param_name
          selected_provider er.2
        if (sr.1).isNull then resolveManual O param_name sr.2
        else (sr.1,
          { sr.2 with ctx := save_context sr.2.ctx [(param_name, sr.1)] })
      else resolveManual O param_name er.2
  | none => resolveManual O param_name er.2

/-- The provider branch of `resolve_parameter_with_dependency`: resolve
the provider's own required parameters, execute it, then extract. -/
def resolveViaProvider (O : Oracles)
    (resolveStep : String → PDict → String → List String → RState →
      Val × RState)
    (provider_params_info : List PDict)
    (param_name selected_provider : String) (stack' : List String)
    (st : RState) : Val × RState :=
  let r := resolveDeps resolveStep selected_provider stack'
    provider_params_info ([], st)
  resolveAfterExec O param_name selected_provider
    (execute_endpoint O selected_provider r.1 r.2)

/-- The provider-lookup phase of `resolve_parameter_with_dependency`:
rank the candidate providers, apply the `merchantId`/`/merchants`
special case, look up the selected provider's own GET parameters and
continue via `resolveViaProvider`; no candidate at all means manual
entry. -/
def resolveProvidersPhase (A : Analyzer) (O : Oracles)
    (resolveStep : String → PDict → String → List String → RState →
      Val × RState)
    (param_name : String) (stack' : List String) (st : RState) :
    Val × RState :=
  match sortByKey (rank_provider A)
      (find_parameter_providers A param_name) with
  | [] => resolveManual O param_name st
  | sel :: restp =>
      let selected_provider :=
        if strLower param_name == "merchantid" &&
            (sel :: restp).contains "/merchants" then "/merchants"
        else sel
      let provider_params_info :=
        match lookupA A.paths selected_provider with
        | some methods =>
            (match lookupA methods "get" with
             | some details => details.parameters
             | none => [])
        | none => []
      resolveViaProvider O resolveStep provider_params_info param_name
        selected_provider stack' st

/-- `resolve_parameter_with_dependency`.  The Python recursion is
modelled with a fuel parameter (fuel `0` returns `None` without
effects); the `progress`/`task_id` display arguments are omitted, and
the mutable `_resolving_stack` set with its `finally: discard` becomes
the functional `stack` argument (net effect of a call on the caller's
stack is nil, exactly as in the source). -/
def resolve (A : Analyzer) (O : Oracles) :
    Nat → String → PDict → String → List String → RState → Val × RState
  | 0, _, _, _, _, st => (Val.vNull, st)
  | fuel + 1, param_name, param_info, _endpoint, stack, st =>
      if param_name ∈ stack then
        resolveManual O param_name st
      else
        let stack' := param_name :: stack
        let cached := get_value st.ctx param_name
        if (cached.map truthy).getD false then ((cached.getD Val.vNull), st)
        else
          let info := detect_parameter_type param_name param_info
          if info.type == ParameterType.PAGINATION &&
              strLower param_name == "page" then
            (Val.vInt 1, st)
          else if info.type == ParameterType.PAGINATION &&
              (strLower param_name == "pagesize" ||
                strLower param_name == "limit" ||
                strLower param_name == "size") then
            (Val.vInt 50, st)
          else if info.type == ParameterType.BOOLEAN then
            (Val.vBool (O.askYesNo ("Value for " ++ param_name)),
             { st with trace := st.trace ++
                 [REvent.confirmAsk ("Value for " ++ param_name)] })
          else if info.type == ParameterType.ENUM then
            (Val.vStr (O.askChoice ("Select " ++ param_name)
                ((info.enum_values).getD [])),
             { st with trace := st.trace ++
                 [REvent.choiceAsk ("Select " ++ param_name)
                   ((info.enum_values).getD [])] })
          else
            resolveProvidersPhase A O (resolve A O fuel) param_name
              stack' st

/- ------------------------------------------------------------------ -/
/- Resolver lemmas                                                     -/
/- ------------------------------------------------------------------ -/

theorem lookupA_setKey {α : Type} (l : List (String × α)) (k q : String)
    (v : α) :
    lookupA (setKey l k v) q = if q = k then some v else lookupA l q := by
  induction l with
  | nil =>
      show lookupA [(k, v)] q = _
      rw [lookupA_cons]
      rcases eq_or_ne q k with h | h
      · simp [h]
      · simp [h, Ne.symm h, lookupA_nil]
  | cons hd tl ih =>
      obtain ⟨k', v'⟩ := hd
      by_cases hk : k' = k
      · subst hk
        show lookupA (if (k' == k') = true then _ else _) q = _
        rw [if_pos (by simp)]
        rw [lookupA_cons, lookupA_cons]
        rcases eq_or_ne q k' with h | h
        · simp [h]
        · simp [h, Ne.symm h]
      · show lookupA (if (k' == k) = true then _ else _) q = _
        rw [if_neg (by simpa using hk)]
        rw [lookupA_cons, ih, lookupA_cons]
        rcases eq_or_ne q k' with h | h
        · subst h
          simp [hk]
        · simp [Ne.symm h]

theorem get_value_save_single (ctx : List (String × Val)) (k : String)
    (v : Val) :
    get_value (save_context ctx [(k, v)]) k = some v := by
  show get_value (setKey ctx k v) k = some v
  rw [get_value, lookupA_setKey]
  simp

theorem resolveManual_eq (O : Oracles) (param_name : String) (st : RState) :
    resolveManual O param_name st =
      (Val.vStr (O.askValue ("Enter value for " ++ param_name)),
       { ctx := save_context st.ctx
           [(param_name,
             Val.vStr (O.askValue ("Enter value for " ++ param_name)))]
         trace := st.trace ++
           [REvent.prompt ("Enter value for " ++ param_name)] }) := rfl

theorem resolveManual_persists (O : Oracles) (param_name : String)
    (st : RState) :
    get_value (resolveManual O param_name st).2.ctx param_name =
      some (resolveManual O param_name st).1 := by
  rw [resolveManual_eq]
  exact get_value_save_single _ _ _

theorem resolveAfterExec_persists (O : Oracles)
    (param_name selected_provider : String) (er : Option Val × RState) :
    get_value
        (resolveAfterExec O param_name selected_provider er).2.ctx
        param_name =
      some (resolveAfterExec O param_name selected_provider er).1 := by
  obtain ⟨res, st₂⟩ := er
  rcases res with _ | response
  · exact resolveManual_persists O param_name st₂
  · simp only [resolveAfterExec]
    by_cases htr : truthy response = true
    · rw [if_pos htr]
      by_cases hnull : ((select_from_response O response param_name
          selected_provider st₂).1).isNull = true
      · rw [if_pos hnull]
        exact resolveManual_persists O param_name _
      · rw [if_neg hnull]
        exact get_value_save_single _ _ _
    · rw [if_neg htr]
      exact resolveManual_persists O param_name st₂

theorem resolveViaProvider_persists (O : Oracles)
    (resolveStep : String → PDict → String → List String → RState →
      Val × RState)
    (ppi : List PDict) (param_name selected_provider : String)
    (stack' : List String) (st : RState) :
    get_value
        (resolveViaProvider O resolveStep ppi param_name
          selected_provider stack' st).2.ctx param_name =
      some (resolveViaProvider O resolveStep ppi param_name
        selected_provider stack' st).1 := by
  rw [resolveViaProvider]
  exact resolveAfterExec_persists O param_name selected_provider _

theorem execute_endpoint_fails (O : Oracles) (ep : String)
    (params : List (String × Val)) (st : RState)
    (hfail : ∀ ep' args, (∃ msg, O.exec ep' args = Except.error msg) ∨
      O.exec ep' args = Except.ok none) :
    (execute_endpoint O ep params st).1 = none := by
  rw [execute_endpoint]
  by_cases hm : ep ∈ mappedEndpoints
  · rw [if_pos hm]
    rcases hfail ep params with ⟨msg, he⟩ | he
    · simp [he]
    · simp [he]
  · rw [if_neg hm]

theorem resolveAfterExec_fail (O : Oracles)
    (param_name selected_provider : String) (er : Option Val × RState)
    (hnone : er.1 = none) :
    resolveAfterExec O param_name selected_provider er =
      resolveManual O param_name er.2 := by
  obtain ⟨res, st₂⟩ := er
  simp only at hnone
  subst hnone
  rfl

/- ------------------------------------------------------------------ -/
/- Shared concrete inputs for the resolver claims                      -/
/- ------------------------------------------------------------------ -/

/-- Oracles for witnesses: fixed human answers and an executor whose
every call raises. -/
def oracleA : Oracles :=
  { askValue := fun _ => "manual-value"
    askYesNo := fun _ => true
    askChoice := fun _ _ => "choice"
    rowChoices := ["0"]
    exec := fun _ _ => Except.error "down" }

/-- The analyzer of the empty specification. -/
def emptyAnalyzer : Analyzer := DependencyAnalyzer {}

/-- A spec whose `/merchants` endpoint provides `merchantId` in its
response schema. -/
def specMerch : OpenApiSpec :=
  { paths :=
      [ ("/merchants",
          [("get",
            { parameters := []
              responses :=
                [("200",
                  { content :=
                      [("application/json",
                        { schema :=
                            some (Schema.mk none (some "object")
                              [("merchantId", emptySchema)] none) })] })] })]) ]
    schemas := [] }

/- ------------------------------------------------------------------ -/
/- C4: circular dependency breaks into manual entry                    -/
/- ------------------------------------------------------------------ -/

/-- C4. When the parameter name is already on the resolving stack, the
resolver returns the manually prompted value after persisting it: the
only new trace event is the single manual prompt — no provider lookup,
no recursive resolution, no `ApiExecutor` call — and the call returns
(it does not recurse). -/
theorem resolve_cycle_manual (A : Analyzer) (O : Oracles) (fuel : Nat)
    (param_name : String) (p : PDict) (endpoint : String)
    (stack : List String) (st : RState) (h : param_name ∈ stack) :
    resolve A O (fuel + 1) param_name p endpoint stack st =
      (Val.vStr (O.askValue ("Enter value for " ++ param_name)),
       { ctx := save_context st.ctx
           [(param_name,
             Val.vStr (O.askValue ("Enter value for " ++ param_name)))]
         trace := st.trace ++
           [REvent.prompt ("Enter value for " ++ param_name)] }) := by
  rw [resolve, if_pos h, resolveManual_eq]

/-- C4 witness: a concrete cyclic call. -/
theorem resolve_cycle_manual_witness :
    "locationId" ∈ ["locationId"] ∧
    resolve (DependencyAnalyzer specUP) oracleA (2 + 1) "locationId"
        { name := "locationId" } "/posts" ["locationId"] ⟨[], []⟩ =
      (Val.vStr "manual-value",
       ⟨[("locationId", Val.vStr "manual-value")],
        [REvent.prompt "Enter value for locationId"]⟩) :=
  ⟨by decide, by
    rw [resolve_cycle_manual (DependencyAnalyzer specUP) oracleA 2
      "locationId" { name := "locationId" } "/posts" ["locationId"]
      ⟨[], []⟩ (by decide)]
    rfl⟩

/- ------------------------------------------------------------------ -/
/- C5: cache short-circuits providers                                  -/
/- ------------------------------------------------------------------ -/

/-- C5 (amended). When the parameter name is not already on the
resolving stack and the context store holds a truthy value for it, the
resolver returns that stored value with the state unchanged: no
executor call, no prompt, no provider resolution. -/
theorem resolve_cache_hit (A : Analyzer) (O : Oracles) (fuel : Nat)
    (param_name : String) (p : PDict) (endpoint : String)
    (stack : List String) (st : RState) (v : Val)
    (hstk : param_name ∉ stack)
    (hv : get_value st.ctx param_name = some v)
    (ht : truthy v = true) :
    resolve A O (fuel + 1) param_name p endpoint stack st = (v, st) := by
  rw [resolve, if_neg hstk]
  simp [hv, ht]

/-- C5 witness: a cached truthy value is returned as-is. -/
theorem resolve_cache_hit_witness :
    get_value [("y", Val.vStr "cached")] "y" = some (Val.vStr "cached") ∧
    resolve emptyAnalyzer oracleA (2 + 1) "y" { name := "y" } "/t" []
        ⟨[("y", Val.vStr "cached")], []⟩ =
      (Val.vStr "cached", ⟨[("y", Val.vStr "cached")], []⟩) :=
  ⟨by rfl,
   resolve_cache_hit emptyAnalyzer oracleA 2 "y" { name := "y" } "/t" []
     ⟨[("y", Val.vStr "cached")], []⟩ (Val.vStr "cached") (by decide)
     (by rfl) (by decide)⟩

/-- C5 counterexample: the store holds the (falsy) value `""` for `x`,
yet the resolver does not return it — it prompts and returns the
manually entered value instead. -/
theorem resolve_cache_counterexample :
    get_value [("x", Val.vStr "")] "x" = some (Val.vStr "") ∧
    resolve emptyAnalyzer oracleA 3 "x" { name := "x" } "/t" []
        ⟨[("x", Val.vStr "")], []⟩ =
      (Val.vStr "manual-value",
       ⟨[("x", Val.vStr "manual-value")],
        [REvent.prompt "Enter value for x"]⟩) :=
  ⟨by rfl, by rfl⟩

/- ------------------------------------------------------------------ -/
/- Reduction to the provider phase                                     -/
/- ------------------------------------------------------------------ -/

theorem cached_falsy (st : RState) (param_name : String)
    (hcache : ∀ v, get_value st.ctx param_name = some v →
      truthy v = false) :
    ((get_value st.ctx param_name).map truthy).getD false = false := by
  rcases hcv : get_value st.ctx param_name with _ | v
  · rfl
  · simp [hcache v hcv]

theorem resolve_nonshortcut (A : Analyzer) (O : Oracles) (fuel : Nat)
    (param_name : String) (p : PDict) (endpoint : String)
    (stack : List String) (st : RState)
    (hstk : param_name ∉ stack)
    (hcache : ∀ v, get_value st.ctx param_name = some v →
      truthy v = false)
    (hb1 : ((detect_parameter_type param_name p).type ==
        ParameterType.PAGINATION && (strLower param_name == "page")) =
        false)
    (hb2 : ((detect_parameter_type param_name p).type ==
        ParameterType.PAGINATION && (strLower param_name == "pagesize" ||
          strLower param_name == "limit" ||
          strLower param_name == "size")) = false)
    (hb3 : ((detect_parameter_type param_name p).type ==
        ParameterType.BOOLEAN) = false)
    (hb4 : ((detect_parameter_type param_name p).type ==
        ParameterType.ENUM) = false) :
    resolve A O (fuel + 1) param_name p endpoint stack st =
      resolveProvidersPhase A O (resolve A O fuel) param_name
        (param_name :: stack) st := by
  rw [resolve, if_neg hstk]
  simp only [cached_falsy st param_name hcache, Bool.false_eq_true,
    if_false, hb1, hb2, hb3, hb4]

theorem resolveProvidersPhase_persists (A : Analyzer) (O : Oracles)
    (resolveStep : String → PDict → String → List String → RState →
      Val × RState)
    (param_name : String) (stack' : List String) (st : RState) :
    get_value
        (resolveProvidersPhase A O resolveStep param_name stack' st).2.ctx
        param_name =
      some (resolveProvidersPhase A O resolveStep param_name stack' st).1
    := by
  rw [resolveProvidersPhase]
  rcases sortByKey (rank_provider A)
      (find_parameter_providers A param_name) with _ | ⟨sel, restp⟩
  · exact resolveManual_persists O param_name st
  · exact resolveViaProvider_persists O resolveStep _ param_name _ stack' st

/- ------------------------------------------------------------------ -/
/- C6: obtained values are persisted                                   -/
/- ------------------------------------------------------------------ -/

/-- C6 (amended). Whenever the resolver goes past the cache and the
category shortcuts — the cache misses or holds only a falsy value, and
the parameter is not Boolean, not Enum, and not one of the pagination
names `page`/`pagesize`/`limit`/`size` — the value it returns (provider
extraction or manual prompt, the circular-dependency fallback included)
is persisted to the context store before the call returns.  Cached
values and category-shortcut values are returned without persisting. -/
theorem resolve_persists_value (A : Analyzer) (O : Oracles) (fuel : Nat)
    (param_name : String) (p : PDict) (endpoint : String)
    (stack : List String) (st : RState)
    (hcache : ∀ v, get_value st.ctx param_name = some v →
      truthy v = false)
    (hshort :
      ¬ ((detect_parameter_type param_name p).type =
            ParameterType.PAGINATION ∧
          (strLower param_name = "page" ∨
            strLower param_name = "pagesize" ∨
            strLower param_name = "limit" ∨
            strLower param_name = "size")) ∧
        (detect_parameter_type param_name p).type ≠
          ParameterType.BOOLEAN ∧
        (detect_parameter_type param_name p).type ≠ ParameterType.ENUM) :
    get_value
        (resolve A O (fuel + 1) param_name p endpoint stack st).2.ctx
        param_name =
      some (resolve A O (fuel + 1) param_name p endpoint stack st).1 := by
  by_cases hstk : param_name ∈ stack
  · rw [resolve, if_pos hstk]
    exact resolveManual_persists O param_name st
  · have hnn : (detect_parameter_type param_name p).type =
        ParameterType.PAGINATION →
        ¬ strLower param_name = "page" ∧
        ¬ strLower param_name = "pagesize" ∧
        ¬ strLower param_name = "limit" ∧
        ¬ strLower param_name = "size" := by
      intro hT
      have h1 := hshort.1
      push_neg at h1
      exact h1 hT
    have hb1 : ((detect_parameter_type param_name p).type ==
        ParameterType.PAGINATION && (strLower param_name == "page")) =
        false := by
      by_cases hT : (detect_parameter_type param_name p).type =
          ParameterType.PAGINATION
      · simp [hT, (hnn hT).1]
      · simp [hT]
    have hb2 : ((detect_parameter_type param_name p).type ==
        ParameterType.PAGINATION && (strLower param_name == "pagesize" ||
          strLower param_name == "limit" ||
          strLower param_name == "size")) = false := by
      by_cases hT : (detect_parameter_type param_name p).type =
          ParameterType.PAGINATION
      · simp [hT, (hnn hT).2.1, (hnn hT).2.2.1, (hnn hT).2.2.2]
      · simp [hT]
    have hb3 : ((detect_parameter_type param_name p).type ==
        ParameterType.BOOLEAN) = false := by
      simp [hshort.2.1]
    have hb4 : ((detect_parameter_type param_name p).type ==
        ParameterType.ENUM) = false := by
      simp [hshort.2.2]
    rw [resolve_nonshortcut A O fuel param_name p endpoint stack st hstk
      hcache hb1 hb2 hb3 hb4]
    exact resolveProvidersPhase_persists A O _ param_name _ st

/-- C6 witness: a parameter with no provider is manually resolved and
the entered value lands in the context store. -/
theorem resolve_persists_value_witness :
    get_value
        (resolve emptyAnalyzer oracleA (2 + 1) "x" { name := "x" } "/t"
          [] ⟨[], []⟩).2.ctx "x" =
      some (resolve emptyAnalyzer oracleA (2 + 1) "x" { name := "x" }
        "/t" [] ⟨[], []⟩).1 :=
  resolve_persists_value emptyAnalyzer oracleA 2 "x" { name := "x" }
    "/t" [] ⟨[], []⟩ (fun v hv => Option.noConfusion hv)
    ⟨by decide, by decide, by decide⟩

/-- C6 counterexample: the pagination shortcut for `page` returns `1`
without persisting anything — the claim's "every obtained value is
persisted before returning" fails for category-shortcut values. -/
theorem resolve_persists_counterexample :
    (resolve emptyAnalyzer oracleA 3 "page" { name := "page" } "/t" []
        ⟨[], []⟩).1 = Val.vInt 1 ∧
    get_value
        (resolve emptyAnalyzer oracleA 3 "page" { name := "page" } "/t"
          [] ⟨[], []⟩).2.ctx "page" = none :=
  ⟨by rfl, by rfl⟩

/- ------------------------------------------------------------------ -/
/- C7: provider call failure degrades to manual entry                  -/
/- ------------------------------------------------------------------ -/

theorem resolveProvidersPhase_fail (A : Analyzer) (O : Oracles)
    (resolveStep : String → PDict → String → List String → RState →
      Val × RState)
    (param_name : String) (stack' : List String) (st : RState)
    (hfail : ∀ ep args, (∃ msg, O.exec ep args = Except.error msg) ∨
      O.exec ep args = Except.ok none) :
    (resolveProvidersPhase A O resolveStep param_name stack' st).1 =
      Val.vStr (O.askValue ("Enter value for " ++ param_name)) := by
  rw [resolveProvidersPhase]
  rcases sortByKey (rank_provider A)
      (find_parameter_providers A param_name) with _ | ⟨sel, restp⟩
  · rw [resolveManual_eq]
  · simp only [resolveViaProvider]
    rw [resolveAfterExec_fail _ _ _ _ (execute_endpoint_fails O _ _ _ hfail)]
    rw [resolveManual_eq]

/-- C7. When every call of the underlying API executor fails — raises an
exception (modelled by `Except.error`, caught inside
`execute_endpoint`) or returns no response — a resolution that reaches
the provider-execution step returns the manually prompted value, which
is also persisted; the exception never escapes (`resolve` is a total
function into values, not exceptions). -/
theorem resolve_provider_failure (A : Analyzer) (O : Oracles) (fuel : Nat)
    (param_name : String) (p : PDict) (endpoint : String)
    (stack : List String) (st : RState)
    (hstk : param_name ∉ stack)
    (hcache : ∀ v, get_value st.ctx param_name = some v →
      truthy v = false)
    (hshort :
      ¬ ((detect_parameter_type param_name p).type =
            ParameterType.PAGINATION ∧
          (strLower param_name = "page" ∨
            strLower param_name = "pagesize" ∨
            strLower param_name = "limit" ∨
            strLower param_name = "size")) ∧
        (detect_parameter_type param_name p).type ≠
          ParameterType.BOOLEAN ∧
        (detect_parameter_type param_name p).type ≠ ParameterType.ENUM)
    (hfail : ∀ ep args, (∃ msg, O.exec ep args = Except.error msg) ∨
      O.exec ep args = Except.ok none) :
    (resolve A O (fuel + 1) param_name p endpoint stack st).1 =
      Val.vStr (O.askValue ("Enter value for " ++ param_name)) ∧
    get_value
        (resolve A O (fuel + 1) param_name p endpoint stack st).2.ctx
        param_name =
      some (resolve A O (fuel + 1) param_name p endpoint stack st).1 := by
  have hnn : (detect_parameter_type param_name p).type =
      ParameterType.PAGINATION →
      ¬ strLower param_name = "page" ∧
      ¬ strLower param_name = "pagesize" ∧
      ¬ strLower param_name = "limit" ∧
      ¬ strLower param_name = "size" := by
    intro hT
    have h1 := hshort.1
    push_neg at h1
    exact h1 hT
  have hb1 : ((detect_parameter_type param_name p).type ==
      ParameterType.PAGINATION && (strLower param_name == "page")) =
      false := by
    by_cases hT : (detect_parameter_type param_name p).type =
        ParameterType.PAGINATION
    · simp [hT, (hnn hT).1]
    · simp [hT]
  have hb2 : ((detect_parameter_type param_name p).type ==
      ParameterType.PAGINATION && (strLower param_name == "pagesize" ||
        strLower param_name == "limit" ||
        strLower param_name == "size")) = false := by
    by_cases hT : (detect_parameter_type param_name p).type =
        ParameterType.PAGINATION
    · simp [hT, (hnn hT).2.1, (hnn hT).2.2.1, (hnn hT).2.2.2]
    · simp [hT]
  have hb3 : ((detect_parameter_type param_name p).type ==
      ParameterType.BOOLEAN) = false := by
    simp [hshort.2.1]
  have hb4 : ((detect_parameter_type param_name p).type ==
      ParameterType.ENUM) = false := by
    simp [hshort.2.2]
  rw [resolve_nonshortcut A O fuel param_name p endpoint stack st hstk
    hcache hb1 hb2 hb3 hb4]
  exact ⟨resolveProvidersPhase_fail A O _ param_name _ st hfail,
    resolveProvidersPhase_persists A O _ param_name _ st⟩

/-- C7 witness: resolving `merchantId` over `specMerch` selects the
mapped provider `/merchants`, whose executor call raises; the resolution
returns the manual value and persists it. -/
theorem resolve_provider_failure_witness :
    (resolve (DependencyAnalyzer specMerch) oracleA (2 + 1) "merchantId"
        { name := "merchantId" } "/merchants" [] ⟨[], []⟩).1 =
      Val.vStr (oracleA.askValue ("Enter value for " ++ "merchantId")) ∧
    get_value
        (resolve (DependencyAnalyzer specMerch) oracleA (2 + 1)
          "merchantId" { name := "merchantId" } "/merchants" []
          ⟨[], []⟩).2.ctx "merchantId" =
      some (resolve (DependencyAnalyzer specMerch) oracleA (2 + 1)
        "merchantId" { name := "merchantId" } "/merchants" []
        ⟨[], []⟩).1 :=
  resolve_provider_failure (DependencyAnalyzer specMerch) oracleA 2
    "merchantId" { name := "merchantId" } "/merchants" [] ⟨[], []⟩
    (by decide) (fun v hv => Option.noConfusion hv)
    ⟨by decide, by decide, by decide⟩
    (fun ep args => Or.inl ⟨"down", rfl⟩)

/- ------------------------------------------------------------------ -/
/- C8: pagination defaults                                             -/
/- ------------------------------------------------------------------ -/

/-- C8 (amended). For an uncached (no truthy stored value) parameter
classified as Pagination whose lower-cased name is `page`, `pagesize`,
`limit` or `size`, and that is not already on the resolving stack, the
resolver returns the fixed default — `1` for `page`, `50` for the
size-like names — with the state unchanged: no executor call, no
prompt, nothing persisted.  (Other pagination-classified names such as
`offset` fall through to provider lookup instead.) -/
theorem resolve_pagination_default (A : Analyzer) (O : Oracles)
    (fuel : Nat) (param_name : String) (p : PDict) (endpoint : String)
    (stack : List String) (st : RState)
    (hstk : param_name ∉ stack)
    (hcache : ∀ v, get_value st.ctx param_name = some v →
      truthy v = false)
    (htype : (detect_parameter_type param_name p).type =
      ParameterType.PAGINATION)
    (hname : strLower param_name = "page" ∨
      strLower param_name = "pagesize" ∨ strLower param_name = "limit" ∨
      strLower param_name = "size") :
    resolve A O (fuel + 1) param_name p endpoint stack st =
      (if strLower param_name = "page" then Val.vInt 1 else Val.vInt 50,
       st) := by
  rw [resolve, if_neg hstk]
  by_cases hpage : strLower param_name = "page"
  · have hb1 : ((detect_parameter_type param_name p).type ==
        ParameterType.PAGINATION && (strLower param_name == "page")) =
        true := by
      simp [htype, hpage]
    simp only [cached_falsy st param_name hcache, Bool.false_eq_true,
      if_false, hb1, if_true, if_pos hpage]
  · have hb1 : ((detect_parameter_type param_name p).type ==
        ParameterType.PAGINATION && (strLower param_name == "page")) =
        false := by
      simp [hpage]
    have hsz : strLower param_name = "pagesize" ∨
        strLower param_name = "limit" ∨ strLower param_name = "size" := by
      rcases hname with h | h
      · exact absurd h hpage
      · exact h
    have hb2 : ((detect_parameter_type param_name p).type ==
        ParameterType.PAGINATION && (strLower param_name == "pagesize" ||
          strLower param_name == "limit" ||
          strLower param_name == "size")) = true := by
      rcases hsz with h | h | h <;> simp [htype, h]
    simp only [cached_falsy st param_name hcache, Bool.false_eq_true,
      if_false, hb1, hb2, if_true, if_neg hpage]

/-- C8 witness: `page` yields the fixed default `1` with no prompt, no
call and no persisted entry. -/
theorem resolve_pagination_default_witness :
    resolve emptyAnalyzer oracleA (2 + 1) "page" { name := "page" } "/t"
        [] ⟨[], []⟩ =
      (if strLower "page" = "page" then Val.vInt 1 else Val.vInt 50,
       ⟨[], []⟩) :=
  resolve_pagination_default emptyAnalyzer oracleA 2 "page"
    { name := "page" } "/t" [] ⟨[], []⟩ (by decide)
    (fun v hv => Option.noConfusion hv) (by decide) (Or.inl (by decide))

/-- C8 counterexample: `offset` is classified Pagination, yet the
resolver does not return a fixed default without prompting — it prompts
and returns the manually entered string. -/
theorem resolve_pagination_counterexample :
    (detect_parameter_type "offset" { name := "offset" }).type =
      ParameterType.PAGINATION ∧
    resolve emptyAnalyzer oracleA 3 "offset" { name := "offset" } "/t" []
        ⟨[], []⟩ =
      (Val.vStr "manual-value",
       ⟨[("offset", Val.vStr "manual-value")],
        [REvent.prompt "Enter value for offset"]⟩) :=
  ⟨by decide, by rfl⟩

end ApiBuilder
